import Mathlib

/-!
Shallow embedding of the Bluesky like/repost aggregator (src/aggregator.ts)
and verification of its specification.

Modelling conventions, fixed throughout:
* JavaScript Map objects become association lists (List (K × V)) with
  JS-Map semantics: set updates in place or appends, get returns the first
  match, delete removes the key.  LevelDB key uniqueness means real stores
  never hold duplicate keys; theorems that need this carry a Nodup
  hypothesis.
* The LevelDB store is an association list from String keys to a KVValue
  (the JSON values the program stores).  putKey/delKey are modelled as
  immediate updates: the write batcher only defers physical writes, and
  every property below concerns the state after the enclosing batch has
  flushed.  Prefix iteration (gte/lt ranges) becomes a filter by string
  prefix; no recovery or prune phase reads keys written by itself or a
  later phase through its own iterator, so iterating the phase input
  snapshot is faithful.
* Date.now() values are threaded explicitly as an Int parameter.
* JS numbers stored by the program are integers; numeric KV values are
  modelled as Int (Math.floor is then the identity).  Number(x) coercion
  of a non-numeric string yields NaN; the program only stores at:// URIs
  and decimal-digit key suffixes as strings, so the model parses digit
  strings and treats all other strings as NaN.
* Counters (likes/reposts) are Int, as in JS, so that the Math.max(0, ·)
  floor in the source is meaningful rather than vacuous.
-/

/-- JS-Map get: value of the first entry with the given key. -/
def aget {K V : Type} [DecidableEq K] : List (K × V) → K → Option V
  | [], _ => none
  | (k', v) :: t, k => if k' = k then some v else aget t k

/-- JS-Map set: update the existing entry in place, else append at the end. -/
def aset {K V : Type} [DecidableEq K] : List (K × V) → K → V → List (K × V)
  | [], k, v => [(k, v)]
  | (k', v') :: t, k, v => if k' = k then (k, v) :: t else (k', v') :: aset t k v

/-- JS-Map delete: remove every entry with the given key. -/
def adel {K V : Type} [DecidableEq K] : List (K × V) → K → List (K × V)
  | [], _ => []
  | (k', v) :: t, k => if k' = k then adel t k else (k', v) :: adel t k

/-- Char-list prefix test for strings, mirroring LevelDB range iteration
with gte = p, lt = p ++ [uffff]. -/
def strIsPre (p s : String) : Bool := p.data.isPrefixOf s.data

/-- Drop the first n characters of a string (models String.prototype.slice
with a prefix length). -/
def strDropChars (s : String) (n : Nat) : String := String.mk (s.data.drop n)

/-- Parse a nonempty all-decimal-digit string as a natural number, the way
JS Number(s) parses the integer key suffixes this program writes; any other
string is NaN (none). -/
def parseDigits : List Char → Option Nat
  | [] => none
  | [c] => if c.isDigit then some (c.toNat - 48) else none
  | c :: t =>
    if c.isDigit then
      match parseDigits t with
      | some m => some ((c.toNat - 48) * 10 ^ t.length + m)
      | none => none
    else none

/-- Numeric parse of a string key suffix, as an Int. -/
def parseKeyId (s : String) : Option Int :=
  (parseDigits s.data).map (fun n => (n : Int))

/-- In-memory per-post tally entry (interface PostStats). -/
structure PostStats where
  likes : Int
  reposts : Int
  lastUpdated : Int
  id : Int
  deriving DecidableEq, Repr

/-- Shape of a persisted post row (interface PersistedPostStats): the id
field is optional, other fields default through Number(x) || fallback. -/
structure PersistedPost where
  likes : Int
  reposts : Int
  lastUpdated : Int
  id : Option Int
  deriving DecidableEq, Repr

/-- JSON values this program can find in the LevelDB store: numbers,
strings, booleans, null, post-stats objects, and legacy {uri, url}
objects. -/
inductive KVValue where
  | num (n : Int)
  | str (s : String)
  | boolVal (b : Bool)
  | null
  | post (p : PersistedPost)
  | uriObj (uri : Option String) (url : Option (Option String))
  deriving DecidableEq, Repr

/-- JS truthiness of a stored value (0, empty string, false and null are
falsy; objects are truthy). -/
def kvTruthy : KVValue → Bool
  | .num n => n ≠ 0
  | .str s => s ≠ ""
  | .boolVal b => b
  | .null => false
  | .post _ => true
  | .uriObj _ _ => true

/-- JS Number(v) coercion of a stored value, none for NaN.  Strings are
treated as NaN (the program only stores at:// URIs as string values). -/
def kvToNum : KVValue → Option Int
  | .num n => some n
  | .str _ => none
  | .boolVal b => some (if b then 1 else 0)
  | .null => some 0
  | .post _ => none
  | .uriObj _ _ => none

/-- Bounded insertion-ordered cache (class LruCache): maxSize is
Math.max(0, limit); store is the backing Map as an association list,
oldest entry first. -/
structure Lru where
  maxSize : Nat
  store : List (String × Int)
  deriving DecidableEq, Repr

/-- LruCache.get: a hit re-inserts the key at most-recently-used position;
a miss changes nothing. -/
def Lru.get (c : Lru) (k : String) : Option Int × Lru :=
  match aget c.store k with
  | none => (none, c)
  | some v => (some v, { c with store := adel c.store k ++ [(k, v)] })

/-- LruCache.set: no-op when capacity is zero; otherwise delete any
existing entry, append at MRU, and evict the oldest entry on overflow. -/
def Lru.set (c : Lru) (k : String) (v : Int) : Lru :=
  if c.maxSize = 0 then c
  else
    let st := adel c.store k ++ [(k, v)]
    { c with store := if c.maxSize < st.length then st.tail else st }

/-- LruCache.delete. -/
def Lru.delete (c : Lru) (k : String) : Lru :=
  { c with store := adel c.store k }

/-- Parts of an at:// URI (interface AtUriParts). -/
structure AtUriParts where
  did : String
  collection : String
  rkey : String
  deriving DecidableEq, Repr

/-- Split a character list at '/' separators (String.prototype.split). -/
def splitSlash : List Char → List (List Char)
  | [] => [[]]
  | c :: t =>
    let r := splitSlash t
    if c = '/' then [] :: r
    else
      match r with
      | [] => [[c]]
      | h :: t' => (c :: h) :: t'

/-- parseAtUri from the source: strip at://, split on '/', require at
least three nonempty leading segments. -/
def parseAtUri (uri : String) : Option AtUriParts :=
  if strIsPre "at://" uri then
    let segments := splitSlash (uri.data.drop 5)
    match segments with
    | d :: c :: r :: _ =>
      if d ≠ [] ∧ c ≠ [] ∧ r ≠ [] then
        some ⟨String.mk d, String.mk c, String.mk r⟩
      else none
    | _ => none
  else none

/-- toPostUrl from the source: bsky.app display URL for post URIs. -/
def toPostUrl (uri : String) : Option String :=
  match parseAtUri uri with
  | none => none
  | some parts =>
    if parts.collection = "app.bsky.feed.post" then
      some ("https://bsky.app/profile/" ++ parts.did ++ "/post/" ++ parts.rkey)
    else none

/-- Key builders from the source. -/
def postKey (uri : String) : String := "post:" ++ uri

/-- like:<did>/<rkey> key. -/
def likeKey (id : String) : String := "like:" ++ id

/-- repost:<did>/<rkey> key. -/
def repostKey (id : String) : String := "repost:" ++ id

/-- postid:<uri> key. -/
def postIdLookupKey (uri : String) : String := "postid:" ++ uri

/-- posturi:<id> key. -/
def postUriKey (id : Int) : String := "posturi:" ++ toString id

/-- posturl:<id> key. -/
def postUrlKey (id : Int) : String := "posturl:" ++ toString id

/-- meta:nextPostId key. -/
def metaNextPostIdKey : String := "meta:nextPostId"

/-- Whole mutable state of the aggregator process: the module-level Maps
and caches, the next id counter, and the LevelDB store (post-flush view). -/
structure Agg where
  postStats : List (String × PostStats)
  activeLikes : Lru
  activeReposts : Lru
  postIdByUri : List (String × Int)
  uriByPostId : List (Int × String)
  postUrlById : List (Int × Option String)
  nextPostId : Int
  kv : List (String × KVValue)
  deriving DecidableEq, Repr

/-- putKey: logical effect of a LevelDB put once flushed. -/
def Agg.putKey (s : Agg) (k : String) (v : KVValue) : Agg :=
  { s with kv := aset s.kv k v }

/-- delKey: logical effect of a LevelDB del once flushed. -/
def Agg.delKey (s : Agg) (k : String) : Agg :=
  { s with kv := adel s.kv k }

/-- rememberPostId for the persist = true path used by allocatePostId and
recovery: registers both map directions, caches the display URL, and
persists the postid:, posturi:, posturl: rows. -/
def rememberPostId (s : Agg) (postUri : String) (postId : Int) : Agg :=
  let postUrl := toPostUrl postUri
  let s := { s with
    postIdByUri := aset s.postIdByUri postUri postId
    uriByPostId := aset s.uriByPostId postId postUri
    postUrlById := aset s.postUrlById postId postUrl }
  let s := s.putKey (postIdLookupKey postUri) (.num postId)
  let s := s.putKey (postUriKey postId) (.str postUri)
  match postUrl with
  | some u => s.putKey (postUrlKey postId) (.str u)
  | none => s.delKey (postUrlKey postId)

/-- allocatePostId: reuse an existing mapping or allocate the next id,
register it and persist meta:nextPostId. -/
def allocatePostId (s : Agg) (postUri : String) : Int × Agg :=
  match aget s.postIdByUri postUri with
  | some existing => (existing, s)
  | none =>
    let id := s.nextPostId
    let s := { s with nextPostId := id + 1 }
    let s := rememberPostId s postUri id
    let s := s.putKey metaNextPostIdKey (.num (id + 1))
    (id, s)

/-- removePostId: drop both map directions, the URL cache entry and the
three persisted rows. -/
def removePostId (s : Agg) (postUri : String) (postId : Int) : Agg :=
  let s := { s with
    postIdByUri := adel s.postIdByUri postUri
    uriByPostId := adel s.uriByPostId postId
    postUrlById := adel s.postUrlById postId }
  let s := s.delKey (postIdLookupKey postUri)
  let s := s.delKey (postUriKey postId)
  s.delKey (postUrlKey postId)

/-- ensurePostStats: fetch the tally entry for a URI, creating it with
zero counters (allocating an id if needed) or refreshing lastUpdated. -/
def ensurePostStats (s : Agg) (postUri : String) (now : Int) : PostStats × Agg :=
  match aget s.postStats postUri with
  | some stats =>
    let stats := { stats with lastUpdated := now }
    (stats, { s with postStats := aset s.postStats postUri stats })
  | none =>
    let (postId, s) :=
      match aget s.postIdByUri postUri with
      | some i => (i, s)
      | none => allocatePostId s postUri
    let stats : PostStats := { likes := 0, reposts := 0, lastUpdated := now, id := postId }
    (stats, { s with postStats := aset s.postStats postUri stats })

/-- adjustLikeCount: floor the adjusted counter at 0, refresh lastUpdated,
drop the entry (and its id mapping and post: row) when both counters are
zero, otherwise persist the updated row. -/
def adjustLikeCount (s : Agg) (postUri : String) (delta : Int) (now : Int) : Agg :=
  let found : Option (PostStats × Agg) :=
    if 0 < delta then some (ensurePostStats s postUri now)
    else (aget s.postStats postUri).map (fun st => (st, s))
  match found with
  | none => s
  | some (stats, s) =>
    let stats := { stats with likes := max 0 (stats.likes + delta), lastUpdated := now }
    if stats.likes = (0 : Int) ∧ stats.reposts = (0 : Int) then
      let s := { s with postStats := adel s.postStats postUri }
      let s := s.delKey (postKey postUri)
      removePostId s postUri stats.id
    else
      let s := { s with postStats := aset s.postStats postUri stats }
      s.putKey (postKey postUri)
        (.post { likes := stats.likes, reposts := stats.reposts,
                 lastUpdated := stats.lastUpdated, id := some stats.id })

/-- adjustRepostCount, symmetric to adjustLikeCount. -/
def adjustRepostCount (s : Agg) (postUri : String) (delta : Int) (now : Int) : Agg :=
  let found : Option (PostStats × Agg) :=
    if 0 < delta then some (ensurePostStats s postUri now)
    else (aget s.postStats postUri).map (fun st => (st, s))
  match found with
  | none => s
  | some (stats, s) =>
    let stats := { stats with reposts := max 0 (stats.reposts + delta), lastUpdated := now }
    if stats.likes = (0 : Int) ∧ stats.reposts = (0 : Int) then
      let s := { s with postStats := adel s.postStats postUri }
      let s := s.delKey (postKey postUri)
      removePostId s postUri stats.id
    else
      let s := { s with postStats := aset s.postStats postUri stats }
      s.putKey (postKey postUri)
        (.post { likes := stats.likes, reposts := stats.reposts,
                 lastUpdated := stats.lastUpdated, id := some stats.id })

/-- resolveActiveAssociation: look a reference key up in the active cache,
falling back to the KV row, which may hold a post id (new format) or a URI
(legacy format, rewritten to the id when it resolves).  Returns the
resolved id together with the updated cache and store. -/
def resolveActiveAssociation (cache : Lru) (cacheKey storageKey : String)
    (kv : List (String × KVValue)) (postIdByUri : List (String × Int)) :
    Option Int × Lru × List (String × KVValue) :=
  match Lru.get cache cacheKey with
  | (some cached, cache) => (some cached, cache, kv)
  | (none, cache) =>
    match aget kv storageKey with
    | some (.num n) => (some n, cache.set cacheKey n, kv)
    | some (.str stored) =>
      match aget postIdByUri stored with
      | some postId =>
        (some postId, cache.set cacheKey postId, aset kv storageKey (.num postId))
      | none => (none, cache, kv)
    | some _ => (none, cache, kv)
    | none => (none, cache, kv)

/-- Commit operations on the firehose. -/
inductive Operation where
  | create | update | delete
  deriving DecidableEq, Repr

/-- The fields of a Jetstream commit the aggregator reads: operation,
collection, rkey and the optional record.subject.uri. -/
structure Commit where
  operation : Operation
  collection : String
  rkey : String
  subjectUri : Option String
  deriving DecidableEq, Repr

/-- The fields of a Jetstream event the aggregator reads. -/
structure JEvent where
  did : String
  commit : Option Commit
  deriving DecidableEq, Repr

/-- handleLike: a delete resolves the reference key to a post id and, when
the target post URI is still registered, decrements its like counter, then
drops the cache entry and KV row; a create ensures the tally entry,
increments, and records the reference in cache and KV; updates are
ignored. -/
def handleLike (s : Agg) (did rkey : String) (op : Operation)
    (subjectUri : Option String) (now : Int) : Agg :=
  let key := did ++ "/" ++ rkey
  let storageKey := likeKey key
  match op with
  | .delete =>
    let (postId, cache, kv) :=
      resolveActiveAssociation s.activeLikes key storageKey s.kv s.postIdByUri
    let s := { s with activeLikes := cache, kv := kv }
    match postId with
    | none => s
    | some postId =>
      let s :=
        match aget s.uriByPostId postId with
        | some subj => if subj ≠ "" then adjustLikeCount s subj (-1) now else s
        | none => s
      let s := { s with activeLikes := s.activeLikes.delete key }
      s.delKey storageKey
  | .create =>
    match subjectUri with
    | none => s
    | some subj =>
      if subj = "" then s
      else
        let (stats, s) := ensurePostStats s subj now
        let s := adjustLikeCount s subj 1 now
        let s := { s with activeLikes := s.activeLikes.set key stats.id }
        s.putKey storageKey (.num stats.id)
  | .update => s

/-- handleRepost, symmetric to handleLike on the repost cache and counter. -/
def handleRepost (s : Agg) (did rkey : String) (op : Operation)
    (subjectUri : Option String) (now : Int) : Agg :=
  let key := did ++ "/" ++ rkey
  let storageKey := repostKey key
  match op with
  | .delete =>
    let (postId, cache, kv) :=
      resolveActiveAssociation s.activeReposts key storageKey s.kv s.postIdByUri
    let s := { s with activeReposts := cache, kv := kv }
    match postId with
    | none => s
    | some postId =>
      let s :=
        match aget s.uriByPostId postId with
        | some subj => if subj ≠ "" then adjustRepostCount s subj (-1) now else s
        | none => s
      let s := { s with activeReposts := s.activeReposts.delete key }
      s.delKey storageKey
  | .create =>
    match subjectUri with
    | none => s
    | some subj =>
      if subj = "" then s
      else
        let (stats, s) := ensurePostStats s subj now
        let s := adjustRepostCount s subj 1 now
        let s := { s with activeReposts := s.activeReposts.set key stats.id }
        s.putKey storageKey (.num stats.id)
  | .update => s

/-- handleCommitEvent: dispatch on the commit collection; all other
collections are ignored. -/
def handleCommitEvent (s : Agg) (ev : JEvent) (now : Int) : Agg :=
  match ev.commit with
  | none => s
  | some c =>
    if c.collection = "app.bsky.feed.like" then
      handleLike s ev.did c.rkey c.operation c.subjectUri now
    else if c.collection = "app.bsky.feed.repost" then
      handleRepost s ev.did c.rkey c.operation c.subjectUri now
    else s

/-- Process a stream of events, each paired with its arrival time. -/
def handleEvents (s : Agg) : List (JEvent × Int) → Agg
  | [] => s
  | (ev, now) :: rest => handleEvents (handleCommitEvent s ev now) rest

/-- Decision used by purgePersistedAssociationsByPostId for one row: keep
rows outside the prefix, rows whose key was already deleted in the cache
walk (skipKeys), numeric rows whose id is not targeted, and legacy string
rows whose URI does not currently resolve to a targeted id. -/
def purgeKeep (pre : String) (ids : List Int) (skip : List String)
    (postIdByUri : List (String × Int)) (k : String) (v : KVValue) : Bool :=
  if ¬ strIsPre pre k then true
  else if k ∈ skip then true
  else
    match v with
    | .num n => ¬ n ∈ ids
    | .str t =>
      match aget postIdByUri t with
      | some postId => ¬ postId ∈ ids
      | none => true
    | _ => true

/-- purgePersistedAssociationsByPostId: scan one KV prefix and delete every
row whose stored id (directly, or resolved from a legacy URI value through
postIdByUri) is in the target set. -/
def purgePersistedAssociationsByPostId (s : Agg) (pre : String)
    (targetIds : List Int) (skipKeys : List String) : Agg :=
  if targetIds = [] then s
  else { s with kv := s.kv.filter (fun e => purgeKeep pre targetIds skipKeys s.postIdByUri e.1 e.2) }

/-- Cache walk of cleanupActiveMaps over a snapshot of one cache: delete
every entry mapping to a removed id, delete its KV row, and record the
deleted storage keys. -/
def cleanupCacheLoop (keyFn : String → String) (ids : List Int) :
    List (String × Int) → Lru → List (String × KVValue) → List String →
    Lru × List (String × KVValue) × List String
  | [], cache, kv, dk => (cache, kv, dk)
  | (k, postId) :: rest, cache, kv, dk =>
    if postId ∈ ids then
      cleanupCacheLoop keyFn ids rest (cache.delete k) (adel kv (keyFn k)) (dk ++ [keyFn k])
    else cleanupCacheLoop keyFn ids rest cache kv dk

/-- cleanupActiveMaps: walk both active caches deleting entries that map
to a removed id (and their KV rows), then purge the like: and repost:
prefixes of any remaining rows resolving to a removed id. -/
def cleanupActiveMaps (s : Agg) (removedPostIds : List Int) : Agg :=
  if removedPostIds = [] then s
  else
    let (lcache, kv, likeDk) :=
      cleanupCacheLoop likeKey removedPostIds s.activeLikes.store s.activeLikes s.kv []
    let s := { s with activeLikes := lcache, kv := kv }
    let (rcache, kv2, repostDk) :=
      cleanupCacheLoop repostKey removedPostIds s.activeReposts.store s.activeReposts s.kv []
    let s := { s with activeReposts := rcache, kv := kv2 }
    let s := purgePersistedAssociationsByPostId s "like:" removedPostIds likeDk
    purgePersistedAssociationsByPostId s "repost:" removedPostIds repostDk

/-- Retention walk of pruneInactivePosts over a snapshot of the tally:
remove every entry whose age exceeds the retention window, recording its
id. -/
def pruneStep1 : List (String × PostStats) → Agg → Int → Int → List Int → Agg × List Int
  | [], s, _, _, removed => (s, removed)
  | (uri, st) :: rest, s, now, maxAge, removed =>
    if maxAge < now - st.lastUpdated then
      let s := { s with postStats := adel s.postStats uri }
      let s := s.delKey (postKey uri)
      let s := removePostId s uri st.id
      pruneStep1 rest s now maxAge (removed ++ [st.id])
    else pruneStep1 rest s now maxAge removed

/-- Ordering used by the pruner overflow sort: ascending lastUpdated. -/
def byLastUpdated (a b : String × PostStats) : Prop :=
  a.2.lastUpdated ≤ b.2.lastUpdated

instance : DecidableRel byLastUpdated := fun a b =>
  inferInstanceAs (Decidable (a.2.lastUpdated ≤ b.2.lastUpdated))

/-- Overflow walk of pruneInactivePosts: remove the listed oldest entries
that are still present, recording their ids. -/
def pruneStep2Loop : List (String × PostStats) → Agg → List Int → Agg × List Int
  | [], s, removed => (s, removed)
  | (uri, _) :: rest, s, removed =>
    match aget s.postStats uri with
    | some st =>
      let s := { s with postStats := adel s.postStats uri }
      let s := s.delKey (postKey uri)
      let s := removePostId s uri st.id
      pruneStep2Loop rest s (removed ++ [st.id])
    | none => pruneStep2Loop rest s removed

/-- pruneInactivePosts: drop stale tally entries, then enough oldest
entries to fit under the tracking cap, then cascade into the caches and
the like:/repost: rows.  Returns the pruned state and the removed ids. -/
def pruneInactivePosts (s : Agg) (now maxAge : Int) (maxTracked : Nat) : Agg × List Int :=
  let (s, removed) := pruneStep1 s.postStats s now maxAge []
  let (s, removed) :=
    if maxTracked < s.postStats.length then
      let excess := s.postStats.length - maxTracked
      let entries := List.insertionSort byLastUpdated s.postStats
      pruneStep2Loop (entries.take excess) s removed
    else (s, removed)
  (cleanupActiveMaps s removed, removed)

/-- Rows of one key prefix, the iterator range gte = pre, lt = pre ++
[uffff]. -/
def kvRows (kv : List (String × KVValue)) (pre : String) : List (String × KVValue) :=
  kv.filter (fun e => strIsPre pre e.1)

/-- loadStoredNextPostId: accept a positive numeric meta:nextPostId,
deleting the key when present but unusable. -/
def loadStoredNextPostId (s : Agg) : Option Int × Agg :=
  match aget s.kv metaNextPostIdKey with
  | none => (none, s)
  | some v =>
    match kvToNum v with
    | some n => if 0 < n then (some n, s) else (none, s.delKey metaNextPostIdKey)
    | none => (none, s.delKey metaNextPostIdKey)

/-- restorePostIdLookups walk: build postIdByUri from postid: rows with a
nonempty URI suffix and a positive integer value, deleting malformed rows;
returns the highest id seen. -/
def restorePostIdLookupsGo : List (String × KVValue) → Agg → Int → Agg × Int
  | [], s, maxId => (s, maxId)
  | (k, v) :: rest, s, maxId =>
    let uri := strDropChars k 7
    match kvToNum v with
    | some n =>
      if uri ≠ "" ∧ 0 < n then
        restorePostIdLookupsGo rest
          { s with postIdByUri := aset s.postIdByUri uri n } (max maxId n)
      else restorePostIdLookupsGo rest (s.delKey k) maxId
    | none => restorePostIdLookupsGo rest (s.delKey k) maxId

/-- URI and URL fields read from a posturi: value: a plain string is the
URI (legacy), an object may carry uri and url fields; url distinguishes
missing (none), null (some none) and a string (some (some u)). -/
def postUriValue : KVValue → Option String × Option (Option String)
  | .str u => (some u, none)
  | .uriObj uri url => (uri, url)
  | _ => (none, none)

/-- restorePostUriMappings walk: build uriByPostId from posturi: rows with
a positive integer key suffix and a usable URI, filling postIdByUri only
where absent and recovering the URL cache; deletes malformed rows and
returns the highest id seen. -/
def restorePostUriMappingsGo : List (String × KVValue) → Agg → Int → Agg × Int
  | [], s, maxId => (s, maxId)
  | (k, v) :: rest, s, maxId =>
    match parseKeyId (strDropChars k 8) with
    | none => restorePostUriMappingsGo rest (s.delKey k) maxId
    | some idv =>
      if idv ≤ 0 then restorePostUriMappingsGo rest (s.delKey k) maxId
      else
        match postUriValue v with
        | (none, _) => restorePostUriMappingsGo rest (s.delKey k) maxId
        | (some uri, urlField) =>
          if uri = "" then restorePostUriMappingsGo rest (s.delKey k) maxId
          else
            let s := { s with uriByPostId := aset s.uriByPostId idv uri }
            let s :=
              if (aget s.postIdByUri uri).isSome then s
              else { s with postIdByUri := aset s.postIdByUri uri idv }
            let s :=
              match urlField with
              | some url => { s with postUrlById := aset s.postUrlById idv url }
              | none => s
            restorePostUriMappingsGo rest s (max maxId idv)

/-- restorePostUrls walk: populate the URL cache from posturl: rows with a
positive integer key suffix and a string or null value (an empty string is
normalized to null); deletes malformed rows and returns the highest id
seen. -/
def restorePostUrlsGo : List (String × KVValue) → Agg → Int → Agg × Int
  | [], s, maxId => (s, maxId)
  | (k, v) :: rest, s, maxId =>
    match parseKeyId (strDropChars k 8) with
    | none => restorePostUrlsGo rest (s.delKey k) maxId
    | some idv =>
      if idv ≤ 0 then restorePostUrlsGo rest (s.delKey k) maxId
      else
        match v with
        | .str u =>
          restorePostUrlsGo rest
            { s with postUrlById := aset s.postUrlById idv (if u = "" then none else some u) }
            (max maxId idv)
        | .null =>
          restorePostUrlsGo rest
            { s with postUrlById := aset s.postUrlById idv none } (max maxId idv)
        | _ => restorePostUrlsGo rest (s.delKey k) maxId

/-- Counters, lastUpdated and optional id parsed from a post: row value:
Number(x) || 0 on the counters, Number(x) || now on the timestamp, and a
positive-integer check on the id.  Values that are not stats objects read
all fields as undefined. -/
def parsePostRow (v : KVValue) (now : Int) : Int × Int × Int × Option Int :=
  match v with
  | .post p =>
    (p.likes, p.reposts, if p.lastUpdated = 0 then now else p.lastUpdated,
     match p.id with
     | some i => if 0 < i then some i else none
     | none => none)
  | _ => (0, 0, now, none)

/-- restorePosts row: skip and delete rows with an empty URI or a falsy
value; drop rows whose counters are both zero or whose age exceeds the
retention window (removing their id mappings); otherwise resolve the post
id (registry first, then the persisted id, else a fresh allocation),
insert the tally entry, and rewrite the row when the canonical payload
differs.  Threads the highest restored id. -/
def restorePostRow (s : Agg) (k : String) (v : KVValue) (now maxAge hid : Int) : Agg × Int :=
  let uri := strDropChars k 5
  if uri = "" then (s.delKey k, hid)
  else if ¬ kvTruthy v then (s.delKey k, hid)
  else
    match parsePostRow v now with
    | (likes, reposts, lastUpdated, persistedId) =>
      if likes = 0 ∧ reposts = 0 then
        let s := s.delKey k
        let s :=
          match persistedId.orElse (fun _ => aget s.postIdByUri uri) with
          | some i => removePostId s uri i
          | none => s
        (s, hid)
      else if maxAge < now - lastUpdated then
        let s := s.delKey k
        let s :=
          match persistedId.orElse (fun _ => aget s.postIdByUri uri) with
          | some i => removePostId s uri i
          | none => s
        (s, hid)
      else
        let (postId, s) :=
          match aget s.postIdByUri uri with
          | some i =>
            let s := { s with uriByPostId := aset s.uriByPostId i uri }
            let s :=
              if (aget s.postUrlById i).isSome then s
              else { s with postUrlById := aset s.postUrlById i (toPostUrl uri) }
            (i, s)
          | none =>
            match persistedId with
            | some pid =>
              let s := { s with
                postIdByUri := aset s.postIdByUri uri pid
                uriByPostId := aset s.uriByPostId pid uri }
              let s := { s with uriByPostId := aset s.uriByPostId pid uri }
              let s :=
                if (aget s.postUrlById pid).isSome then s
                else { s with postUrlById := aset s.postUrlById pid (toPostUrl uri) }
              (pid, s)
            | none => allocatePostId s uri
        let stats : PostStats :=
          { likes := likes, reposts := reposts, lastUpdated := lastUpdated, id := postId }
        let s := { s with postStats := aset s.postStats uri stats }
        let payload : PersistedPost :=
          { likes := likes, reposts := reposts, lastUpdated := lastUpdated, id := some postId }
        let s := if v ≠ KVValue.post payload then s.putKey (postKey uri) (.post payload) else s
        (s, max hid postId)

/-- restorePosts walk, one restorePostRow per row. -/
def restorePostsGo : List (String × KVValue) → Agg → Int → Int → Int → Agg × Int
  | [], s, _, _, highestId => (s, highestId)
  | (k, v) :: rest, s, now, maxAge, highestId =>
    match restorePostRow s k v now maxAge highestId with
    | (s', highestId') => restorePostsGo rest s' now maxAge highestId'

/-- restoreLikes walk: resolve each like: row to a post id (rewriting
legacy URI values that resolve), keep it in the active cache when the
target post is in the tally, and delete the row otherwise. -/
def restoreLikeRow (s : Agg) (k : String) (v : KVValue) : Agg :=
  let likeId := strDropChars k 5
  let (postIdOpt, s) :=
    match v with
    | .num n => (some n, s)
    | .str u =>
      match aget s.postIdByUri u with
      | some pid => (some pid, s.putKey (likeKey likeId) (.num pid))
      | none => (none, s)
    | _ => (none, s)
  match postIdOpt with
  | some pid =>
    match aget s.uriByPostId pid with
    | some uri =>
      if uri ≠ "" ∧ (aget s.postStats uri).isSome then
        { s with activeLikes := s.activeLikes.set likeId pid }
      else s.delKey k
    | none => s.delKey k
  | none => s.delKey k

/-- restoreLikes walk, one restoreLikeRow per row. -/
def restoreLikesGo : List (String × KVValue) → Agg → Agg
  | [], s => s
  | (k, v) :: rest, s => restoreLikesGo rest (restoreLikeRow s k v)

/-- restoreReposts walk, symmetric to restoreLikes. -/
def restoreRepostRow (s : Agg) (k : String) (v : KVValue) : Agg :=
  let repostId := strDropChars k 7
  let (postIdOpt, s) :=
    match v with
    | .num n => (some n, s)
    | .str u =>
      match aget s.postIdByUri u with
      | some pid => (some pid, s.putKey (repostKey repostId) (.num pid))
      | none => (none, s)
    | _ => (none, s)
  match postIdOpt with
  | some pid =>
    match aget s.uriByPostId pid with
    | some uri =>
      if uri ≠ "" ∧ (aget s.postStats uri).isSome then
        { s with activeReposts := s.activeReposts.set repostId pid }
      else s.delKey k
    | none => s.delKey k
  | none => s.delKey k

/-- restoreReposts walk, one restoreRepostRow per row. -/
def restoreRepostsGo : List (String × KVValue) → Agg → Agg
  | [], s => s
  | (k, v) :: rest, s => restoreRepostsGo rest (restoreRepostRow s k v)

/-- Fresh in-memory state over a given store, as after the clear calls at
the top of loadState. -/
def emptyAgg (kv0 : List (String × KVValue)) (likeCap repostCap : Nat) : Agg :=
  { postStats := [], activeLikes := ⟨likeCap, []⟩, activeReposts := ⟨repostCap, []⟩,
    postIdByUri := [], uriByPostId := [], postUrlById := [], nextPostId := 1, kv := kv0 }

/-- loadState: run the recovery phases in source order over the store,
establishing nextPostId = max(stored, phase maxes + 1, 1) before restoring
posts and raising it again after, then persisting it and rebuilding both
active caches. -/
def loadState (kv0 : List (String × KVValue)) (now maxAge : Int)
    (likeCap repostCap : Nat) : Agg :=
  let s := emptyAgg kv0 likeCap repostCap
  let (storedNext, s) := loadStoredNextPostId s
  let (s, maxB) := restorePostIdLookupsGo (kvRows kv0 "postid:") s 0
  let (s, maxC) := restorePostUriMappingsGo (kvRows kv0 "posturi:") s 0
  let (s, maxD) := restorePostUrlsGo (kvRows kv0 "posturl:") s 0
  let phaseMax := max (max maxB maxC) maxD
  let s := { s with nextPostId := max (max (storedNext.getD 0) (phaseMax + 1)) 1 }
  let (s, postHighest) := restorePostsGo (kvRows kv0 "post:") s now maxAge 0
  let highestSeen := max phaseMax postHighest
  let s := { s with nextPostId := max s.nextPostId (highestSeen + 1) }
  let s := s.putKey metaNextPostIdKey (.num s.nextPostId)
  let s := restoreLikesGo (kvRows kv0 "like:") s
  restoreRepostsGo (kvRows kv0 "repost:") s

/-- REPOST_WEIGHT constant. -/
def REPOST_WEIGHT : Int := 2

/-- calculateScore: likes + 2 * reposts. -/
def calculateScore (stats : PostStats) : Int :=
  stats.likes + REPOST_WEIGHT * stats.reposts

/-- calculateHotness, with Math.exp abstracted as an uninterpreted
function E into Option (none standing for a non-finite result, the
Number.isFinite false branch of the source): zero when the base score is
not positive, the base score itself when the decay factor is non-finite,
and base * decay otherwise. -/
def calculateHotness (E : ℚ → Option ℚ) (halfLifeHours : ℚ)
    (stats : PostStats) (now : Int) : ℚ :=
  let baseScore : ℚ := (calculateScore stats : ℤ)
  if baseScore ≤ 0 then 0
  else
    let ageHours : ℚ := max 0 (((now - stats.lastUpdated : ℤ) : ℚ) / (60 * 60 * 1000))
    match E (-ageHours / halfLifeHours) with
    | some decayFactor => baseScore * decayFactor
    | none => baseScore

/-- One leaderboard entry (interface RankedPost). -/
structure RankedPost where
  uri : String
  stats : PostStats
  score : Int
  hotness : ℚ
  url : Option String
  deriving DecidableEq

/-- resolvePostUrl: cached display URL, computing, caching and persisting
it on a miss. -/
def resolvePostUrl (s : Agg) (postId : Int) (uri : String) : Option String × Agg :=
  match aget s.postUrlById postId with
  | some cached => (cached, s)
  | none =>
    let computed := toPostUrl uri
    let s := { s with postUrlById := aset s.postUrlById postId computed }
    match computed with
    | some u => (some u, s.putKey (postUrlKey postId) (.str u))
    | none => (none, s.delKey (postUrlKey postId))

/-- Comparator of getRankedPosts as a relation: a ranks no later than b
when a has higher hotness, or equal hotness and higher score, or equal
hotness and score and no older lastUpdated. -/
def rankedLE (a b : RankedPost) : Prop :=
  b.hotness < a.hotness ∨ (b.hotness = a.hotness ∧
    (b.score < a.score ∨ (b.score = a.score ∧ b.stats.lastUpdated ≤ a.stats.lastUpdated)))

instance : DecidableRel rankedLE := fun a b => by
  unfold rankedLE; infer_instance

/-- Collection pass of getRankedPosts over the tally, resolving URLs as it
goes. -/
def buildRanked (E : ℚ → Option ℚ) (halfLifeHours : ℚ) (now : Int) :
    List (String × PostStats) → Agg → List RankedPost → List RankedPost × Agg
  | [], s, acc => (acc, s)
  | (uri, st) :: rest, s, acc =>
    let score := calculateScore st
    let hotness := calculateHotness E halfLifeHours st now
    let (url, s) := resolvePostUrl s st.id uri
    buildRanked E halfLifeHours now rest s
      (acc ++ [{ uri := uri, stats := st, score := score, hotness := hotness, url := url }])

/-- getRankedPosts: build one entry per tally row, sort by descending
hotness then score then recency, truncate to the limit. -/
def getRankedPosts (E : ℚ → Option ℚ) (halfLifeHours : ℚ) (s : Agg)
    (limit : Nat) (now : Int) : List RankedPost × Agg :=
  let (ranked, s) := buildRanked E halfLifeHours now s.postStats s []
  ((List.insertionSort rankedLE ranked).take limit, s)

/-- getNumberArg over the parse result of the raw flag value: none models
a missing flag, a bare boolean flag, or a string that is not numeric;
accepted only when strictly positive. -/
def getNumberArg (raw : Option ℚ) (defaultValue : ℚ) : ℚ :=
  match raw with
  | some v => if 0 < v then v else defaultValue
  | none => defaultValue

/-- Configured reporter period (no clamp). -/
def reportIntervalMsOf (raw : Option ℚ) : ℚ := getNumberArg raw 30000

/-- Configured leaderboard size: floored and clamped at 1. -/
def topCountOf (raw : Option ℚ) : Int := max 1 ⌊getNumberArg raw 10⌋

/-- Configured tally cap: floored and clamped at 1000. -/
def maxTrackedPostsOf (raw : Option ℚ) : Int := max 1000 ⌊getNumberArg raw 100000⌋

/-- Configured retention window in hours: floored and clamped at 1. -/
def windowHoursOf (raw : Option ℚ) : Int := max 1 ⌊getNumberArg raw 24⌋

/-- Configured stale override: only parsed when the flag is present,
defaulting to the base retention window. -/
def staleIntervalMsOf (hasStaleFlag : Bool) (raw : Option ℚ) (base : ℚ) : ℚ :=
  if hasStaleFlag then getNumberArg raw base else base

/-- Configured half-life: clamped at 0.25, not floored. -/
def halfLifeHoursOf (raw : Option ℚ) : ℚ := max 0.25 (getNumberArg raw 3)

/-- Configured snapshot period: clamped at 60000, not floored. -/
def snapshotIntervalMsOf (raw : Option ℚ) : ℚ := max 60000 (getNumberArg raw 600000)

/-- Configured like-cache capacity: floored and clamped at 1000. -/
def maxActiveLikesOf (raw : Option ℚ) : Int := max 1000 ⌊getNumberArg raw 200000⌋

/-- Configured repost-cache capacity: floored and clamped at 1000. -/
def maxActiveRepostsOf (raw : Option ℚ) : Int := max 1000 ⌊getNumberArg raw 120000⌋

/-- Hotness as the specification words it, for refinement comparison with
calculateHotness: H = S * E(-max(0, (now - last_updated) / 3600000) /
half_life_hours) with H = 0 when S is not positive and H = S when the
decay factor is non-finite (E returning none), where S = likes +
2 * reposts. -/
def specHotness (E : ℚ → Option ℚ) (halfLifeHours : ℚ)
    (stats : PostStats) (now : Int) : ℚ :=
  let S : ℚ := ((stats.likes + 2 * stats.reposts : ℤ) : ℚ)
  if S ≤ 0 then 0
  else
    match E (-(max 0 (((now - stats.lastUpdated : ℤ) : ℚ) / 3600000) / halfLifeHours)) with
    | some d => S * d
    | none => S

instance : IsTrans RankedPost rankedLE := by
  constructor
  intro a b c h1 h2
  unfold rankedLE at *
  rcases h1 with h1 | ⟨e1, h1⟩
  · rcases h2 with h2 | ⟨e2, h2⟩
    · exact Or.inl (h2.trans h1)
    · exact Or.inl (lt_of_le_of_lt (le_of_eq e2) h1)
  · rcases h2 with h2 | ⟨e2, h2⟩
    · exact Or.inl (lt_of_lt_of_le h2 (le_of_eq e1))
    · refine Or.inr ⟨e2.trans e1, ?_⟩
      rcases h1 with h1 | ⟨f1, h1⟩
      · rcases h2 with h2 | ⟨f2, h2⟩
        · exact Or.inl (h2.trans h1)
        · exact Or.inl (lt_of_le_of_lt (le_of_eq f2) h1)
      · rcases h2 with h2 | ⟨f2, h2⟩
        · exact Or.inl (lt_of_lt_of_le h2 (le_of_eq f1))
        · exact Or.inr ⟨f2.trans f1, h2.trans h1⟩

instance : IsTotal RankedPost rankedLE := by
  constructor
  intro a b
  unfold rankedLE
  rcases lt_trichotomy a.hotness b.hotness with h | h | h
  · exact Or.inr (Or.inl h)
  · rcases lt_trichotomy a.score b.score with h2 | h2 | h2
    · exact Or.inr (Or.inr ⟨h, Or.inl h2⟩)
    · rcases le_total a.stats.lastUpdated b.stats.lastUpdated with h3 | h3
      · exact Or.inr (Or.inr ⟨h, Or.inr ⟨h2, h3⟩⟩)
      · exact Or.inl (Or.inr ⟨h.symm, Or.inr ⟨h2.symm, h3⟩⟩)
    · exact Or.inl (Or.inr ⟨h.symm, Or.inl h2⟩)
  · exact Or.inl (Or.inl h)

/-- Counters invariant of C4: every tally entry has non-negative likes
and reposts. -/
def nonnegCounters (s : Agg) : Prop :=
  ∀ e ∈ s.postStats, 0 ≤ e.2.likes ∧ 0 ≤ e.2.reposts

instance (s : Agg) : Decidable (nonnegCounters s) :=
  inferInstanceAs (Decidable (∀ e ∈ s.postStats, 0 ≤ e.2.likes ∧ 0 ≤ e.2.reposts))

/-- Concrete state with one tally entry, used by witnesses. -/
def demoAgg : Agg :=
  { postStats := [("at://did:p/app.bsky.feed.post/r1",
      { likes := 2, reposts := 1, lastUpdated := 5, id := 7 })],
    activeLikes := ⟨1000, []⟩, activeReposts := ⟨1000, []⟩,
    postIdByUri := [("at://did:p/app.bsky.feed.post/r1", 7)],
    uriByPostId := [(7, "at://did:p/app.bsky.feed.post/r1")],
    postUrlById := [], nextPostId := 8, kv := [] }

/-- Shorthand constructor for tally entries, used in proof statements. -/
def mkPS (likes reposts lastUpdated id : Int) : PostStats :=
  { likes := likes, reposts := reposts, lastUpdated := lastUpdated, id := id }

/-- Shorthand constructor for persisted rows, used in proof statements. -/
def mkPP (likes reposts lastUpdated : Int) (id : Option Int) : PersistedPost :=
  { likes := likes, reposts := reposts, lastUpdated := lastUpdated, id := id }

/-- Pre-state of the C1 counterexample: one stale post (id 7) and one
legacy like: row storing that post's URI, already evicted from the active
cache. -/
def c1Agg : Agg :=
  { postStats := [("at://did:p/app.bsky.feed.post/r1", mkPS 1 0 0 7)],
    activeLikes := ⟨1000, []⟩, activeReposts := ⟨1000, []⟩,
    postIdByUri := [("at://did:p/app.bsky.feed.post/r1", 7)],
    uriByPostId := [(7, "at://did:p/app.bsky.feed.post/r1")],
    postUrlById := [], nextPostId := 8,
    kv := [("like:did:c/z", .str "at://did:p/app.bsky.feed.post/r1")] }

/-- The bidirectional registry invariant of C5. -/
def biInv (s : Agg) : Prop :=
  ∀ u i, aget s.postIdByUri u = some i ↔ aget s.uriByPostId i = some u

/-- The claim-side keep condition of recovery for a post: row value: its
parsed counters are not both zero and its age is within the retention
window.  (Falsy values parse to zero counters, so the separate falsy
delete branch of the code coincides with this condition.) -/
def keepPost (v : KVValue) (now maxAge : Int) : Prop :=
  ¬ ((parsePostRow v now).1 = 0 ∧ (parsePostRow v now).2.1 = 0) ∧
  now - (parsePostRow v now).2.2.1 ≤ maxAge

instance (v : KVValue) (now maxAge : Int) : Decidable (keepPost v now maxAge) :=
  inferInstanceAs (Decidable (_ ∧ _))

/-- Recovery state after the meta, postid:, posturi: and posturl: phases,
together with the stored next id and the phase maximum. -/
def recoveryPhase1 (kv : List (String × KVValue)) (lc rc : Nat) : Agg × Option Int × Int :=
  let s := emptyAgg kv lc rc
  let (storedNext, s) := loadStoredNextPostId s
  let (s, maxB) := restorePostIdLookupsGo (kvRows kv "postid:") s 0
  let (s, maxC) := restorePostUriMappingsGo (kvRows kv "posturi:") s 0
  let (s, maxD) := restorePostUrlsGo (kvRows kv "posturl:") s 0
  (s, storedNext, max (max maxB maxC) maxD)

/-- Recovery state just before restorePosts: nextPostId is established
from the stored value and the phase maximum. -/
def recoveryPreE (kv : List (String × KVValue)) (lc rc : Nat) : Agg :=
  let (s, storedNext, phaseMax) := recoveryPhase1 kv lc rc
  { s with nextPostId := max (max (storedNext.getD 0) (phaseMax + 1)) 1 }

/-- Recovery state just before restoreLikes: restorePosts has run and
nextPostId was raised by the restored maximum and persisted. -/
def recoveryPreL (kv : List (String × KVValue)) (now maxAge : Int) (lc rc : Nat) : Agg :=
  let (s, postHigh) := restorePostsGo (kvRows kv "post:") (recoveryPreE kv lc rc) now maxAge 0
  let phaseMax := (recoveryPhase1 kv lc rc).2.2
  let n2 := max s.nextPostId (max phaseMax postHigh + 1)
  Agg.putKey { s with nextPostId := n2 } metaNextPostIdKey (.num n2)

def c2Kv : List (String × KVValue) :=
  [("post:at://did:p/app.bsky.feed.post/r1", KVValue.post (mkPP 3 1 50 (some 7)))]

/-- Spec-side reading of claim C6: the id carried by a row, per key family
(postid: rows carry it in the value, posturi:/posturl: rows in the key
suffix, post: rows in the stored id field). -/
def specC6RowId (e : String × KVValue) : Int :=
  if strIsPre "postid:" e.1 then (kvToNum e.2).getD 0
  else if strIsPre "posturi:" e.1 then (parseKeyId (strDropChars e.1 8)).getD 0
  else if strIsPre "posturl:" e.1 then (parseKeyId (strDropChars e.1 8)).getD 0
  else if strIsPre "post:" e.1 then
    match e.2 with
    | .post p => p.id.getD 0
    | _ => 0
  else 0

/-- Spec-side reading of claim C6: the highest id seen in any postid:,
posturi:, posturl: or post: row. -/
def specC6MaxId (kv : List (String × KVValue)) : Int :=
  (kv.map specC6RowId).foldr max 0

/-- Spec-side reading of claim C6: the persisted meta:nextPostId value,
read as a number, zero when absent. -/
def specC6Stored (kv : List (String × KVValue)) : Int :=
  match aget kv metaNextPostIdKey with
  | some v => (kvToNum v).getD 0
  | none => 0

/-- Spec-side reading of claim C6: after recovery, next_post_id equals
max(stored_next, max_id + 1, 1). -/
def specC6Next (kv : List (String × KVValue)) : Int :=
  max (max (specC6Stored kv) (specC6MaxId kv + 1)) 1

def c6Kv : List (String × KVValue) :=
  [("post:u", KVValue.post (mkPP 1 0 1 (some 100)))]

/-- All ids registered in memory (tally entries, both registry
directions) are at most b. -/
def idsLE (s : Agg) (b : Int) : Prop :=
  (∀ e ∈ s.postStats, e.2.id ≤ b) ∧
  (∀ e ∈ s.postIdByUri, e.2 ≤ b) ∧
  (∀ e ∈ s.uriByPostId, e.1 ≤ b)

instance (s : Agg) (b : Int) : Decidable (idsLE s b) :=
  inferInstanceAs (Decidable (_ ∧ _ ∧ _))

/-- Tail of the restorePosts keep branch that fills the URL cache when the
resolved id has no entry yet. -/
def postRowUrlFill (s : Agg) (uri : String) (i : Int) : Agg :=
  if (aget s.postUrlById i).isSome then s
  else { s with postUrlById := aset s.postUrlById i (toPostUrl uri) }

/-- Tail of the restorePosts keep branch: insert the tally entry and
rewrite the row when the canonical payload differs. -/
def postRowFinish (s : Agg) (uri : String) (v : KVValue)
    (likes reposts lastUpdated postId : Int) : Agg :=
  let s := { s with postStats := aset s.postStats uri (mkPS likes reposts lastUpdated postId) }
  if v ≠ KVValue.post (mkPP likes reposts lastUpdated (some postId)) then
    s.putKey (postKey uri) (.post (mkPP likes reposts lastUpdated (some postId)))
  else s

theorem aget_aset_self {K V : Type} [DecidableEq K] (m : List (K × V)) (k : K) (v : V) :
    aget (aset m k v) k = some v := by
  induction m with
  | nil => simp [aset, aget]
  | cons h t ih =>
    obtain ⟨k', v'⟩ := h
    by_cases hk : k' = k <;> simp [aset, aget, hk, ih]

theorem aget_aset_ne {K V : Type} [DecidableEq K] (m : List (K × V)) (k k' : K) (v : V)
    (h : k ≠ k') : aget (aset m k v) k' = aget m k' := by
  induction m with
  | nil => simp [aset, aget, h]
  | cons hd t ih =>
    obtain ⟨k'', v''⟩ := hd
    by_cases hk : k'' = k
    · subst hk; simp [aset, aget, h]
    · by_cases hk2 : k'' = k' <;> simp [aset, aget, hk, hk2, ih, Ne.symm h]

theorem aget_adel_self {K V : Type} [DecidableEq K] (m : List (K × V)) (k : K) :
    aget (adel m k) k = none := by
  induction m with
  | nil => simp [adel, aget]
  | cons hd t ih =>
    obtain ⟨k', v'⟩ := hd
    by_cases hk : k' = k <;> simp [adel, aget, hk, ih]

theorem aget_adel_ne {K V : Type} [DecidableEq K] (m : List (K × V)) (k k' : K)
    (h : k ≠ k') : aget (adel m k) k' = aget m k' := by
  induction m with
  | nil => simp [adel, aget]
  | cons hd t ih =>
    obtain ⟨k'', v''⟩ := hd
    by_cases hk : k'' = k
    · subst hk; simp [adel, aget, h, ih]
    · by_cases hk2 : k'' = k' <;> simp [adel, aget, hk, hk2, ih, Ne.symm h]

theorem mem_aset {K V : Type} [DecidableEq K] (m : List (K × V)) (k : K) (v : V)
    (e : K × V) (h : e ∈ aset m k v) : e ∈ m ∨ e = (k, v) := by
  induction m with
  | nil => simp [aset] at h; simp [h]
  | cons hd t ih =>
    obtain ⟨k', v'⟩ := hd
    by_cases hk : k' = k
    · simp [aset, hk] at h
      rcases h with h | h
      · right; simp [h]
      · left; simp [h]
    · simp [aset, hk] at h
      rcases h with h | h
      · left; simp [h]
      · rcases ih h with h' | h'
        · left; simp [h']
        · right; exact h'

theorem mem_adel {K V : Type} [DecidableEq K] (m : List (K × V)) (k : K)
    (e : K × V) (h : e ∈ adel m k) : e ∈ m := by
  induction m with
  | nil => simp [adel] at h
  | cons hd t ih =>
    obtain ⟨k', v'⟩ := hd
    by_cases hk : k' = k
    · simp [adel, hk] at h; simp [ih h]
    · simp [adel, hk] at h
      rcases h with h | h
      · simp [h]
      · simp [ih h]

theorem aget_mem {K V : Type} [DecidableEq K] (m : List (K × V)) (k : K) (v : V)
    (h : aget m k = some v) : (k, v) ∈ m := by
  induction m with
  | nil => simp [aget] at h
  | cons hd t ih =>
    obtain ⟨k', v'⟩ := hd
    by_cases hk : k' = k
    · simp [aget, hk] at h; simp [hk, h]
    · simp [aget, hk] at h; simp [ih h]

theorem adel_key_not_mem {K V : Type} [DecidableEq K] (m : List (K × V)) (k : K)
    (e : K × V) (h : e ∈ adel m k) : e.1 ≠ k := by
  induction m with
  | nil => simp [adel] at h
  | cons hd t ih =>
    obtain ⟨k', v'⟩ := hd
    by_cases hk : k' = k
    · simp [adel, hk] at h; exact ih h
    · simp [adel, hk] at h
      rcases h with h | h
      · simp [h]; exact hk
      · exact ih h

/-- C10 helper: a non-positive adjustment with no tally entry takes the
postStats.get branch and returns before touching anything. -/
theorem adjustLike_absent_noop (s : Agg) (uri : String) (delta now : Int)
    (hd : delta ≤ 0) (hn : aget s.postStats uri = none) :
    adjustLikeCount s uri delta now = s := by
  have h1 : ¬ (0 < delta) := not_lt.mpr hd
  simp [adjustLikeCount, h1, hn]

theorem adjustRepost_absent_noop (s : Agg) (uri : String) (delta now : Int)
    (hd : delta ≤ 0) (hn : aget s.postStats uri = none) :
    adjustRepostCount s uri delta now = s := by
  have h1 : ¬ (0 < delta) := not_lt.mpr hd
  simp [adjustRepostCount, h1, hn]

/-- C10: for a URI with no tally entry, adjustLikeCount and
adjustRepostCount with a non-positive delta are complete no-ops: the whole
state (tally, registry, caches and KV store) is returned unchanged, so no
PostStats entry is created, no post id allocated, and no KV write or
delete issued. -/
theorem claim_C10_adjust_absent_noop (s : Agg) (uri : String) (delta now : Int)
    (hd : delta ≤ 0) (hn : aget s.postStats uri = none) :
    adjustLikeCount s uri delta now = s ∧ adjustRepostCount s uri delta now = s :=
  ⟨adjustLike_absent_noop s uri delta now hd hn,
   adjustRepost_absent_noop s uri delta now hd hn⟩

/-- Witness for C10 at a concrete state and input. -/
theorem claim_C10_witness :
    adjustLikeCount (emptyAgg [] 0 0) "at://did:p/app.bsky.feed.post/r1" (-1) 5 = emptyAgg [] 0 0 ∧
    adjustRepostCount (emptyAgg [] 0 0) "at://did:p/app.bsky.feed.post/r1" (-1) 5 = emptyAgg [] 0 0 :=
  claim_C10_adjust_absent_noop (emptyAgg [] 0 0) "at://did:p/app.bsky.feed.post/r1" (-1) 5
    (by decide) rfl

/-- C8 helper: when resolveActiveAssociation resolves nothing it also
changed nothing: the cache miss does not reorder the cache and no
migration write happens. -/
theorem resolve_none_frame (cache : Lru) (ck sk : String) (kv : List (String × KVValue))
    (pib : List (String × Int))
    (h : (resolveActiveAssociation cache ck sk kv pib).1 = none) :
    resolveActiveAssociation cache ck sk kv pib = (none, cache, kv) := by
  cases hc : aget cache.store ck with
  | some v => simp [resolveActiveAssociation, Lru.get, hc] at h
  | none =>
    cases hk : aget kv sk with
    | none => simp [resolveActiveAssociation, Lru.get, hc, hk]
    | some v =>
      cases v with
      | num n => simp [resolveActiveAssociation, Lru.get, hc, hk] at h
      | str t =>
        cases hp : aget pib t with
        | none => simp [resolveActiveAssociation, Lru.get, hc, hk, hp]
        | some pid => simp [resolveActiveAssociation, Lru.get, hc, hk, hp] at h
      | boolVal b => simp [resolveActiveAssociation, Lru.get, hc, hk]
      | null => simp [resolveActiveAssociation, Lru.get, hc, hk]
      | post p => simp [resolveActiveAssociation, Lru.get, hc, hk]
      | uriObj u l => simp [resolveActiveAssociation, Lru.get, hc, hk]

/-- C8: a delete like or repost commit whose reference key resolves to no
post id (absent from the active cache, and from the KV row or stored as a
legacy URI with no registry mapping) returns with the entire state
unchanged: tally, both caches and the KV store, so in particular no KV row
is created. -/
theorem claim_C8_unresolved_delete_noop (s : Agg) (did rkey : String)
    (subj : Option String) (now : Int)
    (hl : (resolveActiveAssociation s.activeLikes (did ++ "/" ++ rkey)
            (likeKey (did ++ "/" ++ rkey)) s.kv s.postIdByUri).1 = none)
    (hr : (resolveActiveAssociation s.activeReposts (did ++ "/" ++ rkey)
            (repostKey (did ++ "/" ++ rkey)) s.kv s.postIdByUri).1 = none) :
    handleLike s did rkey .delete subj now = s ∧
    handleRepost s did rkey .delete subj now = s := by
  constructor
  · simp [handleLike, resolve_none_frame _ _ _ _ _ hl]
  · simp [handleRepost, resolve_none_frame _ _ _ _ _ hr]

/-- Witness for C8: a delete with no prior create on the empty state. -/
theorem claim_C8_witness :
    handleLike (emptyAgg [] 1000 1000) "did:c" "z" .delete none 0 = emptyAgg [] 1000 1000 ∧
    handleRepost (emptyAgg [] 1000 1000) "did:c" "z" .delete none 0 = emptyAgg [] 1000 1000 :=
  claim_C8_unresolved_delete_noop (emptyAgg [] 1000 1000) "did:c" "z" none 0 rfl rfl

/-- C9: every numeric flag falls back to its documented default when the
raw value is missing, non-numeric (both modelled by a none parse result)
or not strictly positive, and every accepted value is clamped to the
undocumented minimum: top at 1, max-posts at 1000, window-hours at 1,
half-life-hours at 0.25, snapshot-interval-ms at 60000 and both active
cache capacities at 1000. -/
theorem claim_C9_config_defaults_and_clamps :
    (∀ v : ℚ, v ≤ 0 →
      topCountOf (some v) = 10 ∧
      maxTrackedPostsOf (some v) = 100000 ∧
      windowHoursOf (some v) = 24 ∧
      halfLifeHoursOf (some v) = 3 ∧
      snapshotIntervalMsOf (some v) = 600000 ∧
      maxActiveLikesOf (some v) = 200000 ∧
      maxActiveRepostsOf (some v) = 120000 ∧
      reportIntervalMsOf (some v) = 30000) ∧
    (topCountOf none = 10 ∧
      maxTrackedPostsOf none = 100000 ∧
      windowHoursOf none = 24 ∧
      halfLifeHoursOf none = 3 ∧
      snapshotIntervalMsOf none = 600000 ∧
      maxActiveLikesOf none = 200000 ∧
      maxActiveRepostsOf none = 120000 ∧
      reportIntervalMsOf none = 30000) ∧
    (∀ raw : Option ℚ,
      1 ≤ topCountOf raw ∧
      1000 ≤ maxTrackedPostsOf raw ∧
      1 ≤ windowHoursOf raw ∧
      (0.25 : ℚ) ≤ halfLifeHoursOf raw ∧
      (60000 : ℚ) ≤ snapshotIntervalMsOf raw ∧
      1000 ≤ maxActiveLikesOf raw ∧
      1000 ≤ maxActiveRepostsOf raw) := by
  refine ⟨?_, ?_, ?_⟩
  · intro v hv
    have hnot : ¬ (0 < v) := not_lt.mpr hv
    refine ⟨?_, ?_, ?_, ?_, ?_, ?_, ?_, ?_⟩ <;>
      simp [topCountOf, maxTrackedPostsOf, windowHoursOf, halfLifeHoursOf,
        snapshotIntervalMsOf, maxActiveLikesOf, maxActiveRepostsOf,
        reportIntervalMsOf, getNumberArg, hnot] <;> norm_num
  · refine ⟨?_, ?_, ?_, ?_, ?_, ?_, ?_, ?_⟩ <;>
      simp [topCountOf, maxTrackedPostsOf, windowHoursOf, halfLifeHoursOf,
        snapshotIntervalMsOf, maxActiveLikesOf, maxActiveRepostsOf,
        reportIntervalMsOf, getNumberArg] <;> norm_num
  · intro raw
    refine ⟨?_, ?_, ?_, ?_, ?_, ?_, ?_⟩ <;>
      simp [topCountOf, maxTrackedPostsOf, windowHoursOf, halfLifeHoursOf,
        snapshotIntervalMsOf, maxActiveLikesOf, maxActiveRepostsOf]

/-- Witness for C9 at the concrete rejected value 0 (a flag like
--top 0). -/
theorem claim_C9_witness :
    topCountOf (some 0) = 10 ∧
    maxTrackedPostsOf (some 0) = 100000 ∧
    windowHoursOf (some 0) = 24 ∧
    halfLifeHoursOf (some 0) = 3 ∧
    snapshotIntervalMsOf (some 0) = 600000 ∧
    maxActiveLikesOf (some 0) = 200000 ∧
    maxActiveRepostsOf (some 0) = 120000 ∧
    reportIntervalMsOf (some 0) = 30000 :=
  claim_C9_config_defaults_and_clamps.1 0 (by norm_num)

/-- C7: calculateHotness computes exactly the hotness formula of the
specification (score S = likes + 2 * reposts, decay over hours of age
with the documented zero and non-finite cases), and the list produced by
getRankedPosts is ordered by descending hotness, then descending score,
then most recent lastUpdated (every adjacent and non-adjacent pair is in
rankedLE order). -/
theorem claim_C7_ranking (E : ℚ → Option ℚ) (halfLifeHours : ℚ)
    (s : Agg) (limit : Nat) (now : Int) :
    (∀ stats : PostStats,
        calculateHotness E halfLifeHours stats now = specHotness E halfLifeHours stats now) ∧
    List.Sorted rankedLE (getRankedPosts E halfLifeHours s limit now).1 := by
  constructor
  · intro stats
    unfold calculateHotness specHotness calculateScore REPOST_WEIGHT
    have harg : -(max 0 (((now - stats.lastUpdated : ℤ) : ℚ) / (60 * 60 * 1000))) / halfLifeHours
        = -(max 0 (((now - stats.lastUpdated : ℤ) : ℚ) / 3600000) / halfLifeHours) := by
      rw [neg_div]
      norm_num
    simp only [harg]
  · unfold getRankedPosts
    have hs := List.sorted_insertionSort rankedLE
      (buildRanked E halfLifeHours now s.postStats s []).1
    exact hs.sublist (List.take_sublist _ _)

theorem nonnegList_aset (m : List (String × PostStats)) (u : String) (st : PostStats)
    (h : ∀ e ∈ m, 0 ≤ e.2.likes ∧ 0 ≤ e.2.reposts)
    (hst : 0 ≤ st.likes ∧ 0 ≤ st.reposts) :
    ∀ e ∈ aset m u st, 0 ≤ e.2.likes ∧ 0 ≤ e.2.reposts := by
  intro e he
  rcases mem_aset m u st e he with h' | h'
  · exact h e h'
  · rw [h']; exact hst

theorem nonnegList_adel (m : List (String × PostStats)) (u : String)
    (h : ∀ e ∈ m, 0 ≤ e.2.likes ∧ 0 ≤ e.2.reposts) :
    ∀ e ∈ adel m u, 0 ≤ e.2.likes ∧ 0 ≤ e.2.reposts :=
  fun e he => h e (mem_adel m u e he)

theorem rememberPostId_postStats (s : Agg) (u : String) (i : Int) :
    (rememberPostId s u i).postStats = s.postStats := by
  unfold rememberPostId Agg.putKey Agg.delKey
  cases toPostUrl u <;> simp

theorem allocatePostId_postStats (s : Agg) (u : String) :
    (allocatePostId s u).2.postStats = s.postStats := by
  unfold allocatePostId
  cases hg : aget s.postIdByUri u with
  | some i => simp [hg]
  | none => simp [hg, Agg.putKey, rememberPostId_postStats]

theorem removePostId_postStats (s : Agg) (u : String) (i : Int) :
    (removePostId s u i).postStats = s.postStats := by
  unfold removePostId Agg.delKey
  simp

theorem ensure_shape (s : Agg) (u : String) (now : Int) :
    (ensurePostStats s u now).2.postStats = aset s.postStats u (ensurePostStats s u now).1 := by
  unfold ensurePostStats
  cases hg : aget s.postStats u with
  | some st => simp [hg]
  | none =>
    cases hp : aget s.postIdByUri u with
    | some i => simp [hg, hp]
    | none =>
      simp only [hg, hp]
      rcases ha : allocatePostId s u with ⟨pid, s'⟩
      have := allocatePostId_postStats s u
      rw [ha] at this
      simp at this
      simp [this]

theorem ensure_nonneg (s : Agg) (u : String) (now : Int) (h : nonnegCounters s) :
    0 ≤ (ensurePostStats s u now).1.likes ∧ 0 ≤ (ensurePostStats s u now).1.reposts := by
  unfold ensurePostStats
  cases hg : aget s.postStats u with
  | some st =>
    have hm := h _ (aget_mem _ _ _ hg)
    simp [hg]
    exact hm
  | none =>
    cases hp : aget s.postIdByUri u with
    | some i => simp [hg, hp]
    | none =>
      simp only [hg, hp]
      rcases ha : allocatePostId s u with ⟨pid, s'⟩
      simp

theorem adjustLike_nonneg (s : Agg) (u : String) (d now : Int) (h : nonnegCounters s) :
    nonnegCounters (adjustLikeCount s u d now) := by
  unfold adjustLikeCount
  by_cases hd : 0 < d
  · rcases he : ensurePostStats s u now with ⟨st, s1⟩
    have hsh := ensure_shape s u now
    have hnn := ensure_nonneg s u now h
    rw [he] at hsh hnn
    simp only at hsh hnn
    simp only [hd, if_pos, he]
    split
    · intro e he'
      simp only [removePostId_postStats, Agg.delKey] at he'
      refine nonnegList_adel _ _ ?_ e he'
      rw [hsh]
      exact nonnegList_aset _ _ _ h hnn
    · intro e he'
      simp only [Agg.putKey] at he'
      refine nonnegList_aset _ _ _ ?_ ?_ e he'
      · rw [hsh]; exact nonnegList_aset _ _ _ h hnn
      · exact ⟨le_max_left _ _, hnn.2⟩
  · simp only [hd, if_neg, not_false_iff]
    cases hg : aget s.postStats u with
    | none => simpa [hg] using h
    | some st =>
      have hm := h _ (aget_mem _ _ _ hg)
      simp only [hg, Option.map_some']
      split
      · intro e he'
        simp only [removePostId_postStats, Agg.delKey] at he'
        exact nonnegList_adel _ _ h e he'
      · intro e he'
        simp only [Agg.putKey] at he'
        refine nonnegList_aset _ _ _ h ?_ e he'
        exact ⟨le_max_left _ _, hm.2⟩

theorem adjustRepost_nonneg (s : Agg) (u : String) (d now : Int) (h : nonnegCounters s) :
    nonnegCounters (adjustRepostCount s u d now) := by
  unfold adjustRepostCount
  by_cases hd : 0 < d
  · rcases he : ensurePostStats s u now with ⟨st, s1⟩
    have hsh := ensure_shape s u now
    have hnn := ensure_nonneg s u now h
    rw [he] at hsh hnn
    simp only at hsh hnn
    simp only [hd, if_pos, he]
    split
    · intro e he'
      simp only [removePostId_postStats, Agg.delKey] at he'
      refine nonnegList_adel _ _ ?_ e he'
      rw [hsh]
      exact nonnegList_aset _ _ _ h hnn
    · intro e he'
      simp only [Agg.putKey] at he'
      refine nonnegList_aset _ _ _ ?_ ?_ e he'
      · rw [hsh]; exact nonnegList_aset _ _ _ h hnn
      · exact ⟨hnn.1, le_max_left _ _⟩
  · simp only [hd, if_neg, not_false_iff]
    cases hg : aget s.postStats u with
    | none => simpa [hg] using h
    | some st =>
      have hm := h _ (aget_mem _ _ _ hg)
      simp only [hg, Option.map_some']
      split
      · intro e he'
        simp only [removePostId_postStats, Agg.delKey] at he'
        exact nonnegList_adel _ _ h e he'
      · intro e he'
        simp only [Agg.putKey] at he'
        refine nonnegList_aset _ _ _ h ?_ e he'
        exact ⟨hm.1, le_max_left _ _⟩

theorem adjustLike_formula (s : Agg) (u : String) (d now : Int) (st : PostStats)
    (hg : aget s.postStats u = some st) :
    (max 0 (st.likes + d) = 0 ∧ st.reposts = 0 →
      aget (adjustLikeCount s u d now).postStats u = none) ∧
    (¬ (max 0 (st.likes + d) = 0 ∧ st.reposts = 0) →
      ∃ st', aget (adjustLikeCount s u d now).postStats u = some st' ∧
        st'.likes = max 0 (st.likes + d) ∧ st'.reposts = st.reposts) := by
  have he : ensurePostStats s u now =
      ({ st with lastUpdated := now },
       { s with postStats := aset s.postStats u { st with lastUpdated := now } }) := by
    unfold ensurePostStats
    simp [hg]
  constructor
  · intro hz
    unfold adjustLikeCount
    by_cases hd : 0 < d
    · simp only [hd, if_pos, he]
      simp [hz.1, hz.2, removePostId_postStats, Agg.delKey, aget_adel_self]
    · simp only [hd, if_neg, not_false_iff, hg, Option.map_some']
      simp [hz.1, hz.2, removePostId_postStats, Agg.delKey, aget_adel_self]
  · intro hz
    have hz2 : ¬ (st.likes + d ≤ 0 ∧ st.reposts = 0) := by
      simpa [sup_eq_left] using hz
    unfold adjustLikeCount
    by_cases hd : 0 < d
    · simp only [hd, if_pos, he]
      refine ⟨{ st with likes := max 0 (st.likes + d), lastUpdated := now }, ?_, rfl, rfl⟩
      simp [Agg.putKey, aget_aset_self, hz, hz2]
    · simp only [hd, if_neg, not_false_iff, hg, Option.map_some']
      refine ⟨{ st with likes := max 0 (st.likes + d), lastUpdated := now }, ?_, rfl, rfl⟩
      simp [Agg.putKey, aget_aset_self, hz, hz2]

theorem adjustRepost_formula (s : Agg) (u : String) (d now : Int) (st : PostStats)
    (hg : aget s.postStats u = some st) :
    (st.likes = 0 ∧ max 0 (st.reposts + d) = 0 →
      aget (adjustRepostCount s u d now).postStats u = none) ∧
    (¬ (st.likes = 0 ∧ max 0 (st.reposts + d) = 0) →
      ∃ st', aget (adjustRepostCount s u d now).postStats u = some st' ∧
        st'.reposts = max 0 (st.reposts + d) ∧ st'.likes = st.likes) := by
  have he : ensurePostStats s u now =
      ({ st with lastUpdated := now },
       { s with postStats := aset s.postStats u { st with lastUpdated := now } }) := by
    unfold ensurePostStats
    simp [hg]
  constructor
  · intro hz
    unfold adjustRepostCount
    by_cases hd : 0 < d
    · simp only [hd, if_pos, he]
      simp [hz.1, hz.2, removePostId_postStats, Agg.delKey, aget_adel_self]
    · simp only [hd, if_neg, not_false_iff, hg, Option.map_some']
      simp [hz.1, hz.2, removePostId_postStats, Agg.delKey, aget_adel_self]
  · intro hz
    have hz2 : ¬ (st.likes = 0 ∧ st.reposts + d ≤ 0) := by
      simpa [sup_eq_left] using hz
    unfold adjustRepostCount
    by_cases hd : 0 < d
    · simp only [hd, if_pos, he]
      refine ⟨{ st with reposts := max 0 (st.reposts + d), lastUpdated := now }, ?_, rfl, rfl⟩
      simp [Agg.putKey, aget_aset_self, hz, hz2]
    · simp only [hd, if_neg, not_false_iff, hg, Option.map_some']
      refine ⟨{ st with reposts := max 0 (st.reposts + d), lastUpdated := now }, ?_, rfl, rfl⟩
      simp [Agg.putKey, aget_aset_self, hz, hz2]

theorem handleLike_nonneg (s : Agg) (did rkey : String) (op : Operation)
    (subj : Option String) (now : Int) (h : nonnegCounters s) :
    nonnegCounters (handleLike s did rkey op subj now) := by
  unfold handleLike
  cases op with
  | update => exact h
  | create =>
    cases subj with
    | none => exact h
    | some u =>
      by_cases hu : u = ""
      · simp only [hu, if_pos]
        exact h
      · simp only [hu, if_neg, not_false_iff]
        rcases he : ensurePostStats s u now with ⟨st, s1⟩
        have hsh := ensure_shape s u now
        have hnn := ensure_nonneg s u now h
        rw [he] at hsh hnn
        simp only at hsh hnn
        have h1 : nonnegCounters s1 := by
          intro e he'
          rw [hsh] at he'
          exact nonnegList_aset _ _ _ h hnn e he'
        simp only [he]
        intro e he'
        exact adjustLike_nonneg s1 u 1 now h1 e he'
  | delete =>
    rcases hr : resolveActiveAssociation s.activeLikes (did ++ "/" ++ rkey)
        (likeKey (did ++ "/" ++ rkey)) s.kv s.postIdByUri with ⟨pid, cache, kv⟩
    simp only [hr]
    cases pid with
    | none => intro e he'; exact h e he'
    | some pid =>
      have h1 : nonnegCounters { s with activeLikes := cache, kv := kv } := by
        intro e he'; exact h e he'
      cases hu : aget s.uriByPostId pid with
      | none =>
        simp only [hu]
        intro e he'; exact h1 e he'
      | some subj2 =>
        by_cases hne : subj2 = ""
        · simp only [hu, hne]
          intro e he'
          simp only [Agg.delKey] at he'
          exact h1 e he'
        · simp only [hu]
          rw [if_pos hne]
          intro e he'
          simp only [Agg.delKey] at he'
          exact adjustLike_nonneg { s with activeLikes := cache, kv := kv } subj2 (-1) now h1 e he'

theorem handleRepost_nonneg (s : Agg) (did rkey : String) (op : Operation)
    (subj : Option String) (now : Int) (h : nonnegCounters s) :
    nonnegCounters (handleRepost s did rkey op subj now) := by
  unfold handleRepost
  cases op with
  | update => exact h
  | create =>
    cases subj with
    | none => exact h
    | some u =>
      by_cases hu : u = ""
      · simp only [hu, if_pos]
        exact h
      · simp only [hu, if_neg, not_false_iff]
        rcases he : ensurePostStats s u now with ⟨st, s1⟩
        have hsh := ensure_shape s u now
        have hnn := ensure_nonneg s u now h
        rw [he] at hsh hnn
        simp only at hsh hnn
        have h1 : nonnegCounters s1 := by
          intro e he'
          rw [hsh] at he'
          exact nonnegList_aset _ _ _ h hnn e he'
        simp only [he]
        intro e he'
        exact adjustRepost_nonneg s1 u 1 now h1 e he'
  | delete =>
    rcases hr : resolveActiveAssociation s.activeReposts (did ++ "/" ++ rkey)
        (repostKey (did ++ "/" ++ rkey)) s.kv s.postIdByUri with ⟨pid, cache, kv⟩
    simp only [hr]
    cases pid with
    | none => intro e he'; exact h e he'
    | some pid =>
      have h1 : nonnegCounters { s with activeReposts := cache, kv := kv } := by
        intro e he'; exact h e he'
      cases hu : aget s.uriByPostId pid with
      | none =>
        simp only [hu]
        intro e he'; exact h1 e he'
      | some subj2 =>
        by_cases hne : subj2 = ""
        · simp only [hu, hne]
          intro e he'
          simp only [Agg.delKey] at he'
          exact h1 e he'
        · simp only [hu]
          rw [if_pos hne]
          intro e he'
          simp only [Agg.delKey] at he'
          exact adjustRepost_nonneg { s with activeReposts := cache, kv := kv } subj2 (-1) now h1 e he'

theorem handleCommitEvent_nonneg (s : Agg) (ev : JEvent) (now : Int)
    (h : nonnegCounters s) : nonnegCounters (handleCommitEvent s ev now) := by
  unfold handleCommitEvent
  cases ev.commit with
  | none => exact h
  | some c =>
    by_cases h1 : c.collection = "app.bsky.feed.like"
    · simp only [h1, if_pos]
      exact handleLike_nonneg _ _ _ _ _ _ h
    · by_cases h2 : c.collection = "app.bsky.feed.repost"
      · simp only [h1, h2, if_neg, not_false_iff, if_pos]
        exact handleRepost_nonneg _ _ _ _ _ _ h
      · simp only [h1, h2, if_neg, not_false_iff]
        exact h

theorem handleEvents_nonneg (evs : List (JEvent × Int)) (s : Agg)
    (h : nonnegCounters s) : nonnegCounters (handleEvents s evs) := by
  induction evs generalizing s with
  | nil => exact h
  | cons e rest ih =>
    exact ih _ (handleCommitEvent_nonneg s e.1 e.2 h)

/-- C4: starting from any state whose counters are all non-negative
(the initial empty state in particular), every likes and reposts counter
in the tally stays non-negative after each handled event of any
like/repost create/delete stream; and a counter adjustment computes
max(0, current + delta): the adjusted entry carries exactly that value,
the other counter unchanged, the entry being removed only when both
counters are zero. -/
theorem claim_C4_counters_nonneg :
    (∀ (s : Agg) (evs : List (JEvent × Int)),
      nonnegCounters s → nonnegCounters (handleEvents s evs)) ∧
    (∀ (s : Agg) (u : String) (d now : Int) (st : PostStats),
      aget s.postStats u = some st →
      (¬ (max 0 (st.likes + d) = 0 ∧ st.reposts = 0) →
        ∃ st', aget (adjustLikeCount s u d now).postStats u = some st' ∧
          st'.likes = max 0 (st.likes + d) ∧ st'.reposts = st.reposts) ∧
      (max 0 (st.likes + d) = 0 ∧ st.reposts = 0 →
        aget (adjustLikeCount s u d now).postStats u = none)) ∧
    (∀ (s : Agg) (u : String) (d now : Int) (st : PostStats),
      aget s.postStats u = some st →
      (¬ (st.likes = 0 ∧ max 0 (st.reposts + d) = 0) →
        ∃ st', aget (adjustRepostCount s u d now).postStats u = some st' ∧
          st'.reposts = max 0 (st.reposts + d) ∧ st'.likes = st.likes) ∧
      (st.likes = 0 ∧ max 0 (st.reposts + d) = 0 →
        aget (adjustRepostCount s u d now).postStats u = none)) :=
  ⟨fun s evs h => handleEvents_nonneg evs s h,
   fun s u d now st hg =>
     ⟨(adjustLike_formula s u d now st hg).2, (adjustLike_formula s u d now st hg).1⟩,
   fun s u d now st hg =>
     ⟨(adjustRepost_formula s u d now st hg).2, (adjustRepost_formula s u d now st hg).1⟩⟩

/-- Witness for C4: the stream invariant on a concrete two-event stream
from the empty state, and the adjustment formula on a concrete entry. -/
theorem claim_C4_witness :
    nonnegCounters (handleEvents (emptyAgg [] 1000 1000)
      [(⟨"did:a", some ⟨.create, "app.bsky.feed.like", "x1",
          some "at://did:p/app.bsky.feed.post/r1"⟩⟩, 0),
       (⟨"did:a", some ⟨.delete, "app.bsky.feed.like", "x1", none⟩⟩, 1)]) ∧
    (∃ st', aget (adjustLikeCount demoAgg "at://did:p/app.bsky.feed.post/r1" (-1) 6).postStats
        "at://did:p/app.bsky.feed.post/r1" = some st' ∧
      st'.likes = max 0 ((2 : Int) + (-1)) ∧ st'.reposts = 1) :=
  ⟨claim_C4_counters_nonneg.1 (emptyAgg [] 1000 1000) _ (by decide),
   (claim_C4_counters_nonneg.2.1 demoAgg "at://did:p/app.bsky.feed.post/r1" (-1) 6
      { likes := 2, reposts := 1, lastUpdated := 5, id := 7 } (by decide)).1 (by decide)⟩

theorem aget_none_of_all_ne {K V : Type} [DecidableEq K] (l : List (K × V)) (k : K)
    (h : ∀ e ∈ l, e.1 ≠ k) : aget l k = none := by
  induction l with
  | nil => rfl
  | cons hd t ih =>
    obtain ⟨k', v'⟩ := hd
    have hk : k' ≠ k := h (k', v') (by simp)
    simp [aget, hk]
    exact ih fun e he => h e (by simp [he])

theorem aget_append_right {K V : Type} [DecidableEq K] (l1 l2 : List (K × V)) (k : K)
    (h : aget l1 k = none) : aget (l1 ++ l2) k = aget l2 k := by
  induction l1 with
  | nil => rfl
  | cons hd t ih =>
    obtain ⟨k', v'⟩ := hd
    by_cases hk : k' = k
    · simp [aget, hk] at h
    · simp [aget, hk] at h ⊢
      exact ih h

/-- A set on a cache with nonzero capacity is always found again: the key
sits at the most-recently-used end and eviction only drops the oldest
entry. -/
theorem aget_after_lruset (c : Lru) (k : String) (v : Int) (h : c.maxSize ≠ 0) :
    aget (Lru.set c k v).store k = some v := by
  unfold Lru.set
  rw [if_neg h]
  simp only
  have hdel : aget (adel c.store k) k = none := aget_adel_self _ _
  split
  · rename_i hover
    cases hadel : adel c.store k with
    | nil =>
      rw [hadel] at hover
      simp at hover
      omega
    | cons a t =>
      simp only [List.cons_append, List.tail_cons]
      have ht : aget t k = none := by
        apply aget_none_of_all_ne
        intro e he
        have : e ∈ adel c.store k := by rw [hadel]; simp [he]
        exact adel_key_not_mem _ _ _ this
      rw [aget_append_right _ _ _ ht]
      simp [aget]
  · rw [aget_append_right _ _ _ hdel]
    simp [aget]

theorem allocate_spec (s : Agg) (u : String) (h : aget s.postIdByUri u = none) :
    (allocatePostId s u).1 = s.nextPostId ∧
    aget (allocatePostId s u).2.uriByPostId s.nextPostId = some u ∧
    (allocatePostId s u).2.postStats = s.postStats := by
  unfold allocatePostId rememberPostId Agg.putKey Agg.delKey
  cases toPostUrl u <;> simp [h, aget_aset_self]

@[simp] theorem mkPS_likes (l r lu i : Int) : (mkPS l r lu i).likes = l := rfl

@[simp] theorem mkPS_reposts (l r lu i : Int) : (mkPS l r lu i).reposts = r := rfl

@[simp] theorem mkPS_lastUpdated (l r lu i : Int) : (mkPS l r lu i).lastUpdated = lu := rfl

@[simp] theorem mkPS_id (l r lu i : Int) : (mkPS l r lu i).id = i := rfl

/-- C3 helper: explicit state shape after a create like commit when the
subject already has a tally entry with non-negative like count. -/
theorem createLike_shape_existing (s : Agg) (did rkey U : String) (now1 : Int)
    (st : PostStats) (hU : U ≠ "") (hg : aget s.postStats U = some st)
    (h0 : 0 ≤ st.likes) :
    handleLike s did rkey .create (some U) now1 =
    { postStats :=
        (aset (aset (aset s.postStats U (mkPS st.likes st.reposts now1 st.id))
          U (mkPS st.likes st.reposts now1 st.id))
          U (mkPS (st.likes + 1) st.reposts now1 st.id)),
      activeLikes := s.activeLikes.set (did ++ "/" ++ rkey) st.id,
      activeReposts := s.activeReposts,
      postIdByUri := s.postIdByUri,
      uriByPostId := s.uriByPostId,
      postUrlById := s.postUrlById,
      nextPostId := s.nextPostId,
      kv :=
        (aset (aset s.kv (postKey U)
          (.post (mkPP (st.likes + 1) st.reposts now1 (some st.id))))
          (likeKey (did ++ "/" ++ rkey)) (.num st.id)) } := by
  have he : ensurePostStats s U now1 =
      (mkPS st.likes st.reposts now1 st.id,
       { s with postStats := aset s.postStats U (mkPS st.likes st.reposts now1 st.id) }) := by
    unfold ensurePostStats
    simp [hg, mkPS]
  have hmax : max 0 (st.likes + 1) = st.likes + 1 := max_eq_right (by omega)
  have hne : ¬ (st.likes + 1 = 0 ∧ st.reposts = 0) := fun hcon => by
    have := hcon.1
    omega
  have hadj : adjustLikeCount
      { s with postStats := aset s.postStats U (mkPS st.likes st.reposts now1 st.id) } U 1 now1 =
      { s with
        postStats :=
          (aset (aset (aset s.postStats U (mkPS st.likes st.reposts now1 st.id))
            U (mkPS st.likes st.reposts now1 st.id))
            U (mkPS (st.likes + 1) st.reposts now1 st.id)),
        kv :=
          (aset s.kv (postKey U)
            (.post (mkPP (st.likes + 1) st.reposts now1 (some st.id)))) } := by
    have he2 : ensurePostStats
        { s with postStats := aset s.postStats U (mkPS st.likes st.reposts now1 st.id) } U now1 =
        (mkPS st.likes st.reposts now1 st.id,
         { s with postStats :=
            (aset (aset s.postStats U (mkPS st.likes st.reposts now1 st.id))
              U (mkPS st.likes st.reposts now1 st.id)) }) := by
      unfold ensurePostStats
      simp [aget_aset_self, mkPS]
    unfold adjustLikeCount
    simp only [he2]
    simp [mkPS, mkPP, hmax, hne, Agg.putKey]
  unfold handleLike
  simp only [he]
  simp [hU, hadj, Agg.putKey]

/-- C3 helper: create then delete round trip when the subject already had
a tally entry (with non-negative like count and a consistent reverse
mapping). -/
theorem roundtripLike_existing (s : Agg) (did rkey U : String) (now1 now2 : Int)
    (st : PostStats) (hU : U ≠ "") (hcap : s.activeLikes.maxSize ≠ 0)
    (hg : aget s.postStats U = some st) (h0 : 0 ≤ st.likes)
    (hr : aget s.uriByPostId st.id = some U) :
    (st.likes = 0 ∧ st.reposts = 0 →
      aget (handleLike (handleLike s did rkey .create (some U) now1)
        did rkey .delete none now2).postStats U = none) ∧
    (¬ (st.likes = 0 ∧ st.reposts = 0) →
      aget (handleLike (handleLike s did rkey .create (some U) now1)
        did rkey .delete none now2).postStats U =
      some (mkPS st.likes st.reposts now2 st.id)) := by
  rw [createLike_shape_existing s did rkey U now1 st hU hg h0]
  have hneg : ¬ ((0 : Int) < -1) := by norm_num
  have harith : st.likes + 1 + -1 = st.likes := by ring
  have hmax0 : max 0 st.likes = st.likes := max_eq_right h0
  constructor
  · intro hz
    simp [handleLike, resolveActiveAssociation, Lru.get,
      aget_after_lruset s.activeLikes (did ++ "/" ++ rkey) st.id hcap, hr, hU,
      adjustLikeCount, hneg, aget_aset_self, harith, hmax0, hz.1, hz.2,
      removePostId_postStats, Agg.delKey, Agg.putKey, aget_adel_self, mkPS, mkPP]
  · intro hz
    simp [handleLike, resolveActiveAssociation, Lru.get,
      aget_after_lruset s.activeLikes (did ++ "/" ++ rkey) st.id hcap, hr, hU,
      adjustLikeCount, hneg, aget_aset_self, harith, hmax0, hz,
      removePostId_postStats, Agg.delKey, Agg.putKey, aget_adel_self, mkPS, mkPP]

theorem allocate_frames (s : Agg) (u : String) :
    (allocatePostId s u).2.activeLikes = s.activeLikes ∧
    (allocatePostId s u).2.activeReposts = s.activeReposts := by
  unfold allocatePostId rememberPostId Agg.putKey Agg.delKey
  cases aget s.postIdByUri u <;> cases toPostUrl u <;> simp

/-- C3 helper: explicit state shape after a create like commit when the
subject has no tally entry but the registry already maps its URI. -/
theorem createLike_shape_mapped (s : Agg) (did rkey U : String) (now1 : Int)
    (i : Int) (hU : U ≠ "") (hg : aget s.postStats U = none)
    (hp : aget s.postIdByUri U = some i) :
    handleLike s did rkey .create (some U) now1 =
    { postStats :=
        (aset (aset (aset s.postStats U (mkPS 0 0 now1 i))
          U (mkPS 0 0 now1 i))
          U (mkPS 1 0 now1 i)),
      activeLikes := s.activeLikes.set (did ++ "/" ++ rkey) i,
      activeReposts := s.activeReposts,
      postIdByUri := s.postIdByUri,
      uriByPostId := s.uriByPostId,
      postUrlById := s.postUrlById,
      nextPostId := s.nextPostId,
      kv :=
        (aset (aset s.kv (postKey U)
          (.post (mkPP 1 0 now1 (some i))))
          (likeKey (did ++ "/" ++ rkey)) (.num i)) } := by
  have he : ensurePostStats s U now1 =
      (mkPS 0 0 now1 i,
       { s with postStats := aset s.postStats U (mkPS 0 0 now1 i) }) := by
    unfold ensurePostStats
    simp [hg, hp, mkPS]
  have he2 : ensurePostStats
      { s with postStats := aset s.postStats U (mkPS 0 0 now1 i) } U now1 =
      (mkPS 0 0 now1 i,
       { s with postStats :=
          (aset (aset s.postStats U (mkPS 0 0 now1 i))
            U (mkPS 0 0 now1 i)) }) := by
    unfold ensurePostStats
    simp [aget_aset_self, mkPS]
  have hadj : adjustLikeCount
      { s with postStats := aset s.postStats U (mkPS 0 0 now1 i) } U 1 now1 =
      { s with
        postStats :=
          (aset (aset (aset s.postStats U (mkPS 0 0 now1 i))
            U (mkPS 0 0 now1 i))
            U (mkPS 1 0 now1 i)),
        kv :=
          (aset s.kv (postKey U)
            (.post (mkPP 1 0 now1 (some i)))) } := by
    unfold adjustLikeCount
    simp only [he2]
    simp [mkPS, mkPP, Agg.putKey]
  unfold handleLike
  simp only [he]
  simp [hU, hadj, Agg.putKey]

/-- C3 helper: create then delete round trip when the subject had no
tally entry but a registry mapping with a consistent reverse entry;
the pair leaves no entry behind. -/
theorem roundtripLike_mapped (s : Agg) (did rkey U : String) (now1 now2 : Int)
    (i : Int) (hU : U ≠ "") (hcap : s.activeLikes.maxSize ≠ 0)
    (hg : aget s.postStats U = none) (hp : aget s.postIdByUri U = some i)
    (hri : aget s.uriByPostId i = some U) :
    aget (handleLike (handleLike s did rkey .create (some U) now1)
      did rkey .delete none now2).postStats U = none := by
  rw [createLike_shape_mapped s did rkey U now1 i hU hg hp]
  have hneg : ¬ ((0 : Int) < -1) := by norm_num
  simp [handleLike, resolveActiveAssociation, Lru.get,
    aget_after_lruset s.activeLikes (did ++ "/" ++ rkey) i hcap, hri, hU,
    adjustLikeCount, hneg, aget_aset_self,
    removePostId_postStats, Agg.delKey, Agg.putKey, aget_adel_self, mkPS, mkPP]

/-- C3 helper: explicit state shape after a create like commit for a
subject the registry has never seen: a fresh id is allocated first. -/
theorem createLike_shape_fresh (s : Agg) (did rkey U : String) (now1 : Int)
    (hU : U ≠ "") (hg : aget s.postStats U = none)
    (hp : aget s.postIdByUri U = none) :
    handleLike s did rkey .create (some U) now1 =
    { postStats :=
        (aset (aset (aset (allocatePostId s U).2.postStats U (mkPS 0 0 now1 s.nextPostId))
          U (mkPS 0 0 now1 s.nextPostId))
          U (mkPS 1 0 now1 s.nextPostId)),
      activeLikes := (allocatePostId s U).2.activeLikes.set (did ++ "/" ++ rkey) s.nextPostId,
      activeReposts := (allocatePostId s U).2.activeReposts,
      postIdByUri := (allocatePostId s U).2.postIdByUri,
      uriByPostId := (allocatePostId s U).2.uriByPostId,
      postUrlById := (allocatePostId s U).2.postUrlById,
      nextPostId := (allocatePostId s U).2.nextPostId,
      kv :=
        (aset (aset (allocatePostId s U).2.kv (postKey U)
          (.post (mkPP 1 0 now1 (some s.nextPostId))))
          (likeKey (did ++ "/" ++ rkey)) (.num s.nextPostId)) } := by
  have hn : (allocatePostId s U).1 = s.nextPostId := (allocate_spec s U hp).1
  have hps : (allocatePostId s U).2.postStats = s.postStats := (allocate_spec s U hp).2.2
  have he : ensurePostStats s U now1 =
      (mkPS 0 0 now1 s.nextPostId,
       { (allocatePostId s U).2 with
          postStats := aset (allocatePostId s U).2.postStats U (mkPS 0 0 now1 s.nextPostId) }) := by
    unfold ensurePostStats
    rcases ha : allocatePostId s U with ⟨n, sa⟩
    rw [ha] at hn
    simp at hn
    subst hn
    simp [hg, hp, mkPS]
  have he2 : ensurePostStats
      { (allocatePostId s U).2 with
        postStats := aset (allocatePostId s U).2.postStats U (mkPS 0 0 now1 s.nextPostId) } U now1 =
      (mkPS 0 0 now1 s.nextPostId,
       { (allocatePostId s U).2 with postStats :=
          (aset (aset (allocatePostId s U).2.postStats U (mkPS 0 0 now1 s.nextPostId))
            U (mkPS 0 0 now1 s.nextPostId)) }) := by
    unfold ensurePostStats
    simp [aget_aset_self, mkPS]
  have hadj : adjustLikeCount
      { (allocatePostId s U).2 with
        postStats := aset (allocatePostId s U).2.postStats U (mkPS 0 0 now1 s.nextPostId) } U 1 now1 =
      { (allocatePostId s U).2 with
        postStats :=
          (aset (aset (aset (allocatePostId s U).2.postStats U (mkPS 0 0 now1 s.nextPostId))
            U (mkPS 0 0 now1 s.nextPostId))
            U (mkPS 1 0 now1 s.nextPostId)),
        kv :=
          (aset (allocatePostId s U).2.kv (postKey U)
            (.post (mkPP 1 0 now1 (some s.nextPostId)))) } := by
    unfold adjustLikeCount
    simp only [he2]
    simp [mkPS, mkPP, Agg.putKey]
  unfold handleLike
  simp only [he]
  simp [hU, hadj, Agg.putKey]

/-- C3 helper: create then delete round trip for a never-seen subject;
the pair leaves no entry behind. -/
theorem roundtripLike_fresh (s : Agg) (did rkey U : String) (now1 now2 : Int)
    (hU : U ≠ "") (hcap : s.activeLikes.maxSize ≠ 0)
    (hg : aget s.postStats U = none) (hp : aget s.postIdByUri U = none) :
    aget (handleLike (handleLike s did rkey .create (some U) now1)
      did rkey .delete none now2).postStats U = none := by
  rw [createLike_shape_fresh s did rkey U now1 hU hg hp]
  have hneg : ¬ ((0 : Int) < -1) := by norm_num
  have hfr := (allocate_frames s U).1
  have hru : aget (allocatePostId s U).2.uriByPostId s.nextPostId = some U :=
    (allocate_spec s U hp).2.1
  rw [hfr]
  simp [handleLike, resolveActiveAssociation, Lru.get,
    aget_after_lruset s.activeLikes (did ++ "/" ++ rkey) s.nextPostId hcap, hru, hU,
    adjustLikeCount, hneg, aget_aset_self,
    removePostId_postStats, Agg.delKey, Agg.putKey, aget_adel_self, mkPS, mkPP]

/-- C3: for every state with a nonzero like-cache capacity (the clamps
guarantee at least 1000), a consistent reverse registry mapping for the
subject and non-negative counters (both invariants of reachable states),
a create like commit for reference key did/rkey with subject U followed
immediately by a delete like commit for the same key leaves U with its
pre-pair like and repost counts, the entry being removed entirely when
both counters return to zero (in particular whenever U had no entry
before the pair). -/
theorem claim_C3_like_roundtrip (s : Agg) (did rkey U : String) (now1 now2 : Int)
    (hU : U ≠ "") (hcap : s.activeLikes.maxSize ≠ 0)
    (hcons1 : ∀ st, aget s.postStats U = some st → aget s.uriByPostId st.id = some U)
    (hcons2 : aget s.postStats U = none →
      ∀ i, aget s.postIdByUri U = some i → aget s.uriByPostId i = some U)
    (hnn : ∀ st, aget s.postStats U = some st → 0 ≤ st.likes) :
    (∀ st, aget s.postStats U = some st →
      (st.likes = 0 ∧ st.reposts = 0 →
        aget (handleLike (handleLike s did rkey .create (some U) now1)
          did rkey .delete none now2).postStats U = none) ∧
      (¬ (st.likes = 0 ∧ st.reposts = 0) →
        ∃ st', aget (handleLike (handleLike s did rkey .create (some U) now1)
          did rkey .delete none now2).postStats U = some st' ∧
          st'.likes = st.likes ∧ st'.reposts = st.reposts)) ∧
    (aget s.postStats U = none →
      aget (handleLike (handleLike s did rkey .create (some U) now1)
        did rkey .delete none now2).postStats U = none) := by
  constructor
  · intro st hst
    have h := roundtripLike_existing s did rkey U now1 now2 st hU hcap hst
      (hnn st hst) (hcons1 st hst)
    exact ⟨h.1, fun hz => ⟨mkPS st.likes st.reposts now2 st.id, h.2 hz, rfl, rfl⟩⟩
  · intro hg
    cases hp : aget s.postIdByUri U with
    | some i => exact roundtripLike_mapped s did rkey U now1 now2 i hU hcap hg hp (hcons2 hg i hp)
    | none => exact roundtripLike_fresh s did rkey U now1 now2 hU hcap hg hp

/-- Witness for C3 on a concrete state with an existing entry of 2 likes
and 1 repost: the pair restores the counters. -/
theorem claim_C3_witness :
    ∃ st', aget (handleLike (handleLike demoAgg "did:a" "x1" .create
        (some "at://did:p/app.bsky.feed.post/r1") 6) "did:a" "x1" .delete none 7).postStats
      "at://did:p/app.bsky.feed.post/r1" = some st' ∧
      st'.likes = 2 ∧ st'.reposts = 1 := by
  have h := claim_C3_like_roundtrip demoAgg "did:a" "x1"
    "at://did:p/app.bsky.feed.post/r1" 6 7 (by decide) (by decide)
    (fun st hst => by
      have : st = mkPS 2 1 5 7 := by
        have h0 : aget demoAgg.postStats "at://did:p/app.bsky.feed.post/r1" =
            some (mkPS 2 1 5 7) := by decide
        rw [h0] at hst
        exact (Option.some.inj hst).symm
      subst this
      decide)
    (fun hg => by
      have h0 : aget demoAgg.postStats "at://did:p/app.bsky.feed.post/r1" =
          some (mkPS 2 1 5 7) := by decide
      rw [h0] at hg
      cases hg)
    (fun st hst => by
      have : st = mkPS 2 1 5 7 := by
        have h0 : aget demoAgg.postStats "at://did:p/app.bsky.feed.post/r1" =
            some (mkPS 2 1 5 7) := by decide
        rw [h0] at hst
        exact (Option.some.inj hst).symm
      subst this
      decide)
  have h2 := (h.1 (mkPS 2 1 5 7) (by decide)).2 (by decide)
  simpa using h2

theorem aget_none_no_mem {K V : Type} [DecidableEq K] (m : List (K × V)) (k : K) (v : V)
    (h : aget m k = none) (hm : (k, v) ∈ m) : False := by
  induction m with
  | nil => simp at hm
  | cons hd t ih =>
    obtain ⟨k', v'⟩ := hd
    by_cases hk : k' = k
    · simp [aget, hk] at h
    · simp [aget, hk] at h
      rcases List.mem_cons.1 hm with he | he
      · exact hk (congrArg Prod.fst he).symm
      · exact ih h he

theorem aget_adel_none {K V : Type} [DecidableEq K] (m : List (K × V)) (k0 k1 : K)
    (h : aget m k0 = none) : aget (adel m k1) k0 = none := by
  by_cases hk : k1 = k0
  · subst hk; exact aget_adel_self _ _
  · rw [aget_adel_ne m k1 k0 hk]; exact h

/-- Entries of the store only shrink through the cleanup cache walk. -/
theorem cleanupCacheLoop_kv_none (keyFn : String → String) (ids : List Int) :
    ∀ (entries : List (String × Int)) (cache : Lru) (kv : List (String × KVValue))
      (dk : List String) (k : String),
      aget kv k = none →
      aget (cleanupCacheLoop keyFn ids entries cache kv dk).2.1 k = none := by
  intro entries
  induction entries with
  | nil => intro cache kv dk k h; exact h
  | cons e rest ih =>
    intro cache kv dk k h
    obtain ⟨ek, epid⟩ := e
    unfold cleanupCacheLoop
    by_cases hid : epid ∈ ids
    · simp only [hid, if_pos]
      exact ih _ _ _ _ (aget_adel_none _ _ _ h)
    · simp only [hid, if_neg, not_false_iff]
      exact ih _ _ _ _ h

/-- Every storage key recorded as deleted by the cleanup cache walk is
absent from the store it returns. -/
theorem cleanupCacheLoop_skip_gone (keyFn : String → String) (ids : List Int) :
    ∀ (entries : List (String × Int)) (cache : Lru) (kv : List (String × KVValue))
      (dk : List String),
      (∀ k ∈ dk, aget kv k = none) →
      ∀ k ∈ (cleanupCacheLoop keyFn ids entries cache kv dk).2.2,
        aget (cleanupCacheLoop keyFn ids entries cache kv dk).2.1 k = none := by
  intro entries
  induction entries with
  | nil => intro cache kv dk h k hk; exact h k hk
  | cons e rest ih =>
    intro cache kv dk h k hk
    obtain ⟨ek, epid⟩ := e
    unfold cleanupCacheLoop at hk ⊢
    by_cases hid : epid ∈ ids
    · simp only [hid, if_pos] at hk ⊢
      refine ih _ _ _ ?_ k hk
      intro k0 hk0
      rcases List.mem_append.1 hk0 with h0 | h0
      · exact aget_adel_none _ _ _ (h k0 h0)
      · simp at h0
        subst h0
        exact aget_adel_self _ _
    · simp only [hid, if_neg, not_false_iff] at hk ⊢
      exact ih _ _ _ h k hk

/-- After the cleanup cache walk no surviving cache entry maps to a
removed id. -/
theorem cleanupCacheLoop_cache_clean (keyFn : String → String) (ids : List Int) :
    ∀ (entries : List (String × Int)) (cache : Lru) (kv : List (String × KVValue))
      (dk : List String),
      (∀ e ∈ cache.store, e.2 ∈ ids → e ∈ entries) →
      ∀ e ∈ (cleanupCacheLoop keyFn ids entries cache kv dk).1.store, e.2 ∉ ids := by
  intro entries
  induction entries with
  | nil =>
    intro cache kv dk h e he hid
    simpa using h e he hid
  | cons hd rest ih =>
    intro cache kv dk h e he hid
    obtain ⟨ek, epid⟩ := hd
    unfold cleanupCacheLoop at he
    by_cases hidk : epid ∈ ids
    · simp only [hidk, if_pos] at he
      refine ih _ _ _ ?_ e he hid
      intro e' he' hid'
      have hmem : e' ∈ cache.store := mem_adel _ _ _ he'
      have hne : e'.1 ≠ ek := adel_key_not_mem _ _ _ he'
      rcases List.mem_cons.1 (h e' hmem hid') with h0 | h0
      · exact absurd (congrArg Prod.fst h0) hne
      · exact h0
    · simp only [hidk, if_neg, not_false_iff] at he
      refine ih _ _ _ ?_ e he hid
      intro e' he' hid'
      rcases List.mem_cons.1 (h e' he' hid') with h0 | h0
      · rw [h0] at hid'
        exact absurd hid' hidk
      · exact h0

/-- The cleanup cache walk leaves the other state fields alone: only the
returned cache, store and deleted-key list matter. -/
theorem cleanupCacheLoop_kv_sub (keyFn : String → String) (ids : List Int) :
    ∀ (entries : List (String × Int)) (cache : Lru) (kv : List (String × KVValue))
      (dk : List String) (e : String × KVValue),
      e ∈ (cleanupCacheLoop keyFn ids entries cache kv dk).2.1 → e ∈ kv := by
  intro entries
  induction entries with
  | nil => intro cache kv dk e he; exact he
  | cons hd rest ih =>
    intro cache kv dk e he
    obtain ⟨ek, epid⟩ := hd
    unfold cleanupCacheLoop at he
    by_cases hid : epid ∈ ids
    · simp only [hid, if_pos] at he
      exact mem_adel _ _ _ (ih _ _ _ _ he)
    · simp only [hid, if_neg, not_false_iff] at he
      exact ih _ _ _ _ he

/-- What survival of the purge filter means for a row in the prefix. -/
theorem purgeKeep_spec (pre : String) (ids : List Int) (skip : List String)
    (pib : List (String × Int)) (k : String) (v : KVValue)
    (hkeep : purgeKeep pre ids skip pib k v = true)
    (hpre : strIsPre pre k = true) (hskip : k ∉ skip) :
    (∀ n, v = .num n → n ∉ ids) ∧
    (∀ t, v = .str t → ∀ i, aget pib t = some i → i ∉ ids) := by
  unfold purgeKeep at hkeep
  rw [if_neg (by simp [hpre]), if_neg (by simpa using hskip)] at hkeep
  constructor
  · intro n hv
    subst hv
    simpa using hkeep
  · intro t hv i hi
    subst hv
    simp [hi] at hkeep
    exact hkeep

/-- cleanupActiveMaps postcondition: both caches are free of removed ids,
and every like: or repost: row that survives holds neither a removed id
as a number nor a legacy URI that still resolves, through the state's
registry, to a removed id. -/
theorem cleanupActiveMaps_spec (s : Agg) (removed : List Int) :
    (∀ e ∈ (cleanupActiveMaps s removed).activeLikes.store, e.2 ∉ removed) ∧
    (∀ e ∈ (cleanupActiveMaps s removed).activeReposts.store, e.2 ∉ removed) ∧
    (∀ k v, (k, v) ∈ (cleanupActiveMaps s removed).kv →
      (strIsPre "like:" k = true ∨ strIsPre "repost:" k = true) →
      (∀ n, v = .num n → n ∉ removed) ∧
      (∀ t, v = .str t → ∀ i,
        aget (cleanupActiveMaps s removed).postIdByUri t = some i → i ∉ removed)) := by
  by_cases hrem : removed = []
  · subst hrem
    refine ⟨fun e _ h => by simp at h, fun e _ h => by simp at h, ?_⟩
    intro k v _ _
    exact ⟨fun n _ h => by simp at h, fun t _ i _ h => by simp at h⟩
  · unfold cleanupActiveMaps
    rw [if_neg hrem]
    rcases hL : cleanupCacheLoop likeKey removed s.activeLikes.store s.activeLikes s.kv []
      with ⟨lcache, kvA, likeDk⟩
    rcases hR : cleanupCacheLoop repostKey removed s.activeReposts.store
      { s with activeLikes := lcache, kv := kvA }.activeReposts
      { s with activeLikes := lcache, kv := kvA }.kv [] with ⟨rcache, kvB, repostDk⟩
    simp only [hL, hR]
    simp only at hR
    unfold purgePersistedAssociationsByPostId
    rw [if_neg hrem, if_neg hrem]
    simp only
    constructor
    · -- like cache
      intro e he
      have := cleanupCacheLoop_cache_clean likeKey removed s.activeLikes.store
        s.activeLikes s.kv [] (fun e' he' _ => he') e
      rw [hL] at this
      exact this he
    constructor
    · -- repost cache
      intro e he
      have := cleanupCacheLoop_cache_clean repostKey removed s.activeReposts.store
        s.activeReposts kvA [] (fun e' he' _ => he') e
      rw [hR] at this
      exact this he
    · -- kv rows
      intro k v hkv hpre
      -- membership chain through the two filters
      have h1 := List.mem_filter.1 hkv
      have h2 := List.mem_filter.1 h1.1
      have hkvB : (k, v) ∈ kvB := h2.1
      have hkeepL : purgeKeep "like:" removed likeDk s.postIdByUri k v = true := h2.2
      have hkeepR : purgeKeep "repost:" removed repostDk s.postIdByUri k v = true := h1.2
      -- deleted keys are gone from kvB, so k is in neither skip list
      have hnotL : k ∉ likeDk := by
        intro hk
        have hnone := cleanupCacheLoop_skip_gone likeKey removed s.activeLikes.store
          s.activeLikes s.kv [] (fun k0 hk0 => by simp at hk0) k
        rw [hL] at hnone
        have hnoneA : aget kvA k = none := hnone hk
        have hnoneB := cleanupCacheLoop_kv_none repostKey removed s.activeReposts.store
          s.activeReposts kvA [] k hnoneA
        rw [hR] at hnoneB
        exact aget_none_no_mem _ _ _ hnoneB hkvB
      have hnotR : k ∉ repostDk := by
        intro hk
        have hnone := cleanupCacheLoop_skip_gone repostKey removed s.activeReposts.store
          s.activeReposts kvA [] (fun k0 hk0 => by simp at hk0) k
        rw [hR] at hnone
        exact aget_none_no_mem _ _ _ (hnone hk) hkvB
      rcases hpre with hp | hp
      · exact purgeKeep_spec "like:" removed likeDk s.postIdByUri k v hkeepL hp hnotL
      · exact purgeKeep_spec "repost:" removed repostDk s.postIdByUri k v hkeepR hp hnotR

/-- C1 (amended): after every run of the pruner, no like: or repost: row
holds a removed id as a number, no row's legacy URI string still resolves
through the surviving registry to a removed id, and neither active cache
contains an entry mapping to a removed id.  (A legacy row whose URI
belonged to a removed post may itself survive: its registry mapping was
deleted first, so the row no longer resolves and later deletes drop
silently; see the counterexample.) -/
theorem claim_C1_amended_prune_cascade (s : Agg) (now maxAge : Int) (maxTracked : Nat) :
    (∀ e ∈ (pruneInactivePosts s now maxAge maxTracked).1.activeLikes.store,
        e.2 ∉ (pruneInactivePosts s now maxAge maxTracked).2) ∧
    (∀ e ∈ (pruneInactivePosts s now maxAge maxTracked).1.activeReposts.store,
        e.2 ∉ (pruneInactivePosts s now maxAge maxTracked).2) ∧
    (∀ k v, (k, v) ∈ (pruneInactivePosts s now maxAge maxTracked).1.kv →
      (strIsPre "like:" k = true ∨ strIsPre "repost:" k = true) →
      (∀ n, v = .num n → n ∉ (pruneInactivePosts s now maxAge maxTracked).2) ∧
      (∀ t, v = .str t → ∀ i,
        aget (pruneInactivePosts s now maxAge maxTracked).1.postIdByUri t = some i →
        i ∉ (pruneInactivePosts s now maxAge maxTracked).2)) := by
  unfold pruneInactivePosts
  rcases h1 : pruneStep1 s.postStats s now maxAge [] with ⟨sA, rA⟩
  simp only [h1]
  by_cases hover : maxTracked < sA.postStats.length
  · simp only [hover, if_pos]
    rcases h2 : pruneStep2Loop
      ((List.insertionSort byLastUpdated sA.postStats).take (sA.postStats.length - maxTracked))
      sA rA with ⟨sB, rB⟩
    simp only [h2]
    exact cleanupActiveMaps_spec sB rB
  · simp only [hover, if_neg, not_false_iff]
    exact cleanupActiveMaps_spec sA rA

/-- C1 counterexample: the pruner removes post id 7 (whose URI the legacy
like: row holds, mapping to 7 in the pre-state), yet the row survives the
run, so a like:* row indirectly holding a removed post id remains in the
KV store, contrary to the claim as stated. -/
theorem claim_C1_counterexample :
    (pruneInactivePosts c1Agg 100 10 1000).2 = [7] ∧
    aget c1Agg.postIdByUri "at://did:p/app.bsky.feed.post/r1" = some 7 ∧
    aget (pruneInactivePosts c1Agg 100 10 1000).1.kv "like:did:c/z" =
      some (.str "at://did:p/app.bsky.feed.post/r1") := by
  decide

theorem rememberPostId_maps (s : Agg) (u : String) (i : Int) :
    (rememberPostId s u i).postIdByUri = aset s.postIdByUri u i ∧
    (rememberPostId s u i).uriByPostId = aset s.uriByPostId i u := by
  unfold rememberPostId Agg.putKey Agg.delKey
  cases toPostUrl u <;> simp

theorem removePostId_maps (s : Agg) (u : String) (i : Int) :
    (removePostId s u i).postIdByUri = adel s.postIdByUri u ∧
    (removePostId s u i).uriByPostId = adel s.uriByPostId i := by
  unfold removePostId Agg.delKey
  simp

/-- C5 (amended): the bidirectional invariant postIdByUri[u] = i iff
uriByPostId[i] = u is preserved by the registry operations as the program
calls them: rememberPostId on a pair fresh in both directions (the
allocatePostId path) and removePostId on a currently mapped pair.
Recovery, however, does not establish the invariant: it deletes only
malformed rows, and an orphaned postid: row leaves a one-sided mapping
(see the counterexample). -/
theorem claim_C5_registry_preservation (s : Agg) (h : biInv s) :
    (∀ u i, aget s.postIdByUri u = none → aget s.uriByPostId i = none →
      biInv (rememberPostId s u i)) ∧
    (∀ u i, aget s.postIdByUri u = some i → biInv (removePostId s u i)) := by
  constructor
  · intro u i hu hi u' i'
    rw [(rememberPostId_maps s u i).1, (rememberPostId_maps s u i).2]
    by_cases hu' : u' = u
    · subst hu'
      by_cases hi' : i' = i
      · subst hi'
        simp [aget_aset_self]
      · rw [aget_aset_self, aget_aset_ne _ _ _ _ (fun hc => hi' hc.symm)]
        constructor
        · intro hc
          exact absurd (Option.some.inj hc) (fun hc2 => hi' hc2.symm)
        · intro hc
          have := (h u' i').2 hc
          rw [hu] at this
          cases this
    · by_cases hi' : i' = i
      · subst hi'
        rw [aget_aset_ne _ _ _ _ (fun hc => hu' hc.symm), aget_aset_self]
        constructor
        · intro hc
          have := (h u' i').1 hc
          rw [hi] at this
          cases this
        · intro hc
          exact absurd (Option.some.inj hc) (fun hc2 => hu' hc2.symm)
      · rw [aget_aset_ne _ _ _ _ (fun hc => hu' hc.symm),
          aget_aset_ne _ _ _ _ (fun hc => hi' hc.symm)]
        exact h u' i'
  · intro u i hm u' i'
    have hrev : aget s.uriByPostId i = some u := (h u i).1 hm
    rw [(removePostId_maps s u i).1, (removePostId_maps s u i).2]
    by_cases hu' : u' = u
    · subst hu'
      rw [aget_adel_self]
      by_cases hi' : i' = i
      · subst hi'
        rw [aget_adel_self]
        simp
      · rw [aget_adel_ne _ _ _ (fun hc => hi' hc.symm)]
        constructor
        · intro hc; cases hc
        · intro hc
          have := (h u' i').2 hc
          rw [hm] at this
          exact absurd (Option.some.inj this).symm hi'
    · by_cases hi' : i' = i
      · subst hi'
        rw [aget_adel_ne _ _ _ (fun hc => hu' hc.symm), aget_adel_self]
        constructor
        · intro hc
          have := (h u' i').1 hc
          rw [hrev] at this
          exact absurd (Option.some.inj this).symm hu'
        · intro hc; cases hc
      · rw [aget_adel_ne _ _ _ (fun hc => hu' hc.symm),
          aget_adel_ne _ _ _ (fun hc => hi' hc.symm)]
        exact h u' i'

/-- C5 counterexample: recovery of a store holding only the orphaned row
postid:u = 1 yields postIdByUri[u] = 1 with no uriByPostId[1], so the
claimed equivalence fails after recovery. -/
theorem claim_C5_counterexample :
    aget (loadState [("postid:u", .num 1)] 0 10 1000 1000).postIdByUri "u" = some 1 ∧
    aget (loadState [("postid:u", .num 1)] 0 10 1000 1000).uriByPostId 1 = none ∧
    ¬ biInv (loadState [("postid:u", .num 1)] 0 10 1000 1000) := by
  refine ⟨by decide, by decide, fun h => ?_⟩
  have h1 := (h "u" 1).1 (by decide)
  have h2 : aget (loadState [("postid:u", .num 1)] 0 10 1000 1000).uriByPostId 1 = none := by
    decide
  rw [h2] at h1
  cases h1

/-- Witness for C5 on the empty registry: registering then the fresh pair
(u, 1) keeps the invariant. -/
theorem claim_C5_witness :
    biInv (rememberPostId (emptyAgg [] 1000 1000) "u" 1) :=
  (claim_C5_registry_preservation (emptyAgg [] 1000 1000)
    (fun u i => by simp [emptyAgg, aget])).1 "u" 1 rfl rfl

theorem removePostId_frames (s : Agg) (u : String) (i : Int) :
    (removePostId s u i).activeLikes = s.activeLikes ∧
    (removePostId s u i).activeReposts = s.activeReposts ∧
    (removePostId s u i).nextPostId = s.nextPostId := by
  unfold removePostId Agg.delKey
  simp

theorem allocate_more_frames (s : Agg) (u : String) :
    (allocatePostId s u).2.nextPostId = s.nextPostId ∨
    (allocatePostId s u).2.nextPostId = s.nextPostId + 1 := by
  unfold allocatePostId rememberPostId Agg.putKey Agg.delKey
  cases aget s.postIdByUri u <;> cases toPostUrl u <;> simp

theorem loadStoredNextPostId_frames (s : Agg) :
    (loadStoredNextPostId s).2.postStats = s.postStats ∧
    (loadStoredNextPostId s).2.activeLikes = s.activeLikes ∧
    (loadStoredNextPostId s).2.activeReposts = s.activeReposts ∧
    (loadStoredNextPostId s).2.postIdByUri = s.postIdByUri ∧
    (loadStoredNextPostId s).2.uriByPostId = s.uriByPostId ∧
    (loadStoredNextPostId s).2.nextPostId = s.nextPostId := by
  unfold loadStoredNextPostId Agg.delKey
  cases hv : aget s.kv metaNextPostIdKey with
  | none => simp
  | some v =>
    cases hn : kvToNum v with
    | none => simp [hv, hn]
    | some n => by_cases h0 : 0 < n <;> simp [hv, hn, h0]

theorem restorePostIdLookupsGo_frames :
    ∀ (L : List (String × KVValue)) (s : Agg) (m : Int),
    (restorePostIdLookupsGo L s m).1.postStats = s.postStats ∧
    (restorePostIdLookupsGo L s m).1.activeLikes = s.activeLikes ∧
    (restorePostIdLookupsGo L s m).1.activeReposts = s.activeReposts ∧
    (restorePostIdLookupsGo L s m).1.uriByPostId = s.uriByPostId ∧
    (restorePostIdLookupsGo L s m).1.nextPostId = s.nextPostId := by
  intro L
  induction L with
  | nil => intro s m; simp [restorePostIdLookupsGo]
  | cons e rest ih =>
    intro s m
    obtain ⟨k, v⟩ := e
    unfold restorePostIdLookupsGo
    cases hv : kvToNum v with
    | none =>
      simp only [hv]
      simpa [Agg.delKey] using ih (s.delKey k) m
    | some n =>
      simp only [hv]
      by_cases hc : strDropChars k 7 ≠ "" ∧ 0 < n
      · rw [if_pos hc]
        simpa using ih _ (max m n)
      · rw [if_neg hc]
        simpa [Agg.delKey] using ih (s.delKey k) m

theorem restorePostUriMappingsGo_frames :
    ∀ (L : List (String × KVValue)) (s : Agg) (m : Int),
    (restorePostUriMappingsGo L s m).1.postStats = s.postStats ∧
    (restorePostUriMappingsGo L s m).1.activeLikes = s.activeLikes ∧
    (restorePostUriMappingsGo L s m).1.activeReposts = s.activeReposts ∧
    (restorePostUriMappingsGo L s m).1.nextPostId = s.nextPostId := by
  intro L
  induction L with
  | nil => intro s m; simp [restorePostUriMappingsGo]
  | cons e rest ih =>
    intro s m
    obtain ⟨k, v⟩ := e
    unfold restorePostUriMappingsGo
    cases hid : parseKeyId (strDropChars k 8) with
    | none =>
      simp only [hid]
      simpa [Agg.delKey] using ih (s.delKey k) m
    | some idv =>
      simp only [hid]
      by_cases h0 : idv ≤ 0
      · rw [if_pos h0]
        simpa [Agg.delKey] using ih (s.delKey k) m
      · rw [if_neg h0]
        cases huv : postUriValue v with
        | mk uriOpt urlField =>
          cases uriOpt with
          | none =>
            simpa [Agg.delKey] using ih (s.delKey k) m
          | some uri =>
            by_cases he : uri = ""
            · simpa [he, Agg.delKey] using ih (s.delKey k) m
            · by_cases hmem : (aget s.postIdByUri uri).isSome
              · cases urlField <;> simpa [he, hmem] using ih _ (max m idv)
              · cases urlField <;> simpa [he, hmem] using ih _ (max m idv)

theorem restorePostUrlsGo_frames :
    ∀ (L : List (String × KVValue)) (s : Agg) (m : Int),
    (restorePostUrlsGo L s m).1.postStats = s.postStats ∧
    (restorePostUrlsGo L s m).1.activeLikes = s.activeLikes ∧
    (restorePostUrlsGo L s m).1.activeReposts = s.activeReposts ∧
    (restorePostUrlsGo L s m).1.postIdByUri = s.postIdByUri ∧
    (restorePostUrlsGo L s m).1.uriByPostId = s.uriByPostId ∧
    (restorePostUrlsGo L s m).1.nextPostId = s.nextPostId := by
  intro L
  induction L with
  | nil => intro s m; simp [restorePostUrlsGo]
  | cons e rest ih =>
    intro s m
    obtain ⟨k, v⟩ := e
    unfold restorePostUrlsGo
    cases hid : parseKeyId (strDropChars k 8) with
    | none => simpa [Agg.delKey] using ih (s.delKey k) m
    | some idv =>
      by_cases h0 : idv ≤ 0
      · simpa [h0, Agg.delKey] using ih (s.delKey k) m
      · cases v with
        | str u =>
          by_cases hu : u = "" <;> simpa [h0, hu] using ih _ (max m idv)
        | null => simpa [h0] using ih _ (max m idv)
        | num n => simpa [h0, Agg.delKey] using ih (s.delKey k) m
        | boolVal b => simpa [h0, Agg.delKey] using ih (s.delKey k) m
        | post p => simpa [h0, Agg.delKey] using ih (s.delKey k) m
        | uriObj a b => simpa [h0, Agg.delKey] using ih (s.delKey k) m

theorem restorePostRow_cache_frames (s : Agg) (k : String) (v : KVValue)
    (now maxAge hid : Int) :
    (restorePostRow s k v now maxAge hid).1.activeLikes = s.activeLikes ∧
    (restorePostRow s k v now maxAge hid).1.activeReposts = s.activeReposts := by
  unfold restorePostRow
  repeat' split
  all_goals simp_all [Agg.delKey, Agg.putKey, removePostId, allocatePostId,
    rememberPostId]
  all_goals repeat' split
  all_goals simp_all

theorem restorePostRow_postStats_ne (s : Agg) (k : String) (v : KVValue)
    (now maxAge hid : Int) (uri : String) (h : strDropChars k 5 ≠ uri) :
    aget (restorePostRow s k v now maxAge hid).1.postStats uri = aget s.postStats uri := by
  unfold restorePostRow
  repeat' split
  all_goals simp_all [Agg.delKey, Agg.putKey, removePostId, allocatePostId,
    rememberPostId, aget_aset_ne, h]
  all_goals repeat' split
  all_goals simp_all [aget_aset_ne, h]

theorem restorePostRow_postStats_empty (s : Agg) (k : String) (v : KVValue)
    (now maxAge hid : Int) (uri : String) (h : strDropChars k 5 = "") :
    aget (restorePostRow s k v now maxAge hid).1.postStats uri = aget s.postStats uri := by
  unfold restorePostRow
  rw [if_pos h]
  simp [Agg.delKey]

theorem restorePostRow_postStats_nokeep (s : Agg) (k : String) (v : KVValue)
    (now maxAge hid : Int) (uri : String) (h : ¬ keepPost v now maxAge) :
    aget (restorePostRow s k v now maxAge hid).1.postStats uri = aget s.postStats uri := by
  unfold restorePostRow
  unfold keepPost at h
  repeat' split
  all_goals simp_all [Agg.delKey, Agg.putKey, removePostId, allocatePostId,
    rememberPostId]
  all_goals repeat' split
  all_goals simp_all
  all_goals omega

theorem parse_of_not_truthy (v : KVValue) (now : Int) (h : kvTruthy v = false) :
    parsePostRow v now = (0, 0, now, none) := by
  cases v <;> simp_all [kvTruthy, parsePostRow]

theorem restorePostRow_postStats_insert (s : Agg) (k : String) (v : KVValue)
    (now maxAge hid : Int) (h1 : strDropChars k 5 ≠ "")
    (h2 : keepPost v now maxAge) :
    (aget (restorePostRow s k v now maxAge hid).1.postStats (strDropChars k 5)).isSome := by
  unfold restorePostRow
  unfold keepPost at h2
  repeat' split
  all_goals try simp_all [Agg.delKey, Agg.putKey, aget_aset_self, parse_of_not_truthy]
  all_goals try (repeat' split)
  all_goals try simp_all [aget_aset_self]
  all_goals omega

theorem restorePostRow_postStats_mono (s : Agg) (k : String) (v : KVValue)
    (now maxAge hid : Int) (uri : String)
    (h : (aget s.postStats uri).isSome) :
    (aget (restorePostRow s k v now maxAge hid).1.postStats uri).isSome := by
  by_cases he : strDropChars k 5 = uri
  · by_cases hkeep : keepPost v now maxAge
    · by_cases hne : strDropChars k 5 = ""
      · rw [restorePostRow_postStats_empty s k v now maxAge hid uri hne]
        exact h
      · subst he
        exact restorePostRow_postStats_insert s k v now maxAge hid hne hkeep
    · rw [restorePostRow_postStats_nokeep s k v now maxAge hid uri hkeep]
      exact h
  · rw [restorePostRow_postStats_ne s k v now maxAge hid uri he]
    exact h

/-- Membership in the tally after the restorePosts walk: exactly the
entries present before plus one entry per row with a nonempty URI suffix
satisfying the keep condition. -/
theorem restorePostsGo_mem (now maxAge : Int) :
    ∀ (L : List (String × KVValue)) (s : Agg) (hid : Int) (uri : String),
    (aget (restorePostsGo L s now maxAge hid).1.postStats uri).isSome ↔
      ((aget s.postStats uri).isSome ∨
        ∃ e ∈ L, strDropChars e.1 5 = uri ∧ uri ≠ "" ∧ keepPost e.2 now maxAge) := by
  intro L
  induction L with
  | nil => intro s hid uri; simp [restorePostsGo]
  | cons e rest ih =>
    intro s hid uri
    obtain ⟨k, v⟩ := e
    show (aget (restorePostsGo rest (restorePostRow s k v now maxAge hid).1 now maxAge
        (restorePostRow s k v now maxAge hid).2).1.postStats uri).isSome ↔ _
    rw [ih]
    by_cases he : strDropChars k 5 = uri
    · by_cases hne : uri = ""
      · rw [restorePostRow_postStats_empty s k v now maxAge hid uri (he.trans hne)]
        constructor
        · rintro (h | ⟨e', he', h1, h2, h3⟩)
          · exact Or.inl h
          · exact Or.inr ⟨e', List.mem_cons_of_mem _ he', h1, h2, h3⟩
        · rintro (h | ⟨e', he', h1, h2, h3⟩)
          · exact Or.inl h
          · rcases List.mem_cons.1 he' with hh | hh
            · exact absurd hne h2
            · exact Or.inr ⟨e', hh, h1, h2, h3⟩
      · by_cases hkeep : keepPost v now maxAge
        · constructor
          · intro _
            exact Or.inr ⟨(k, v), List.mem_cons_self _ _, he, hne, hkeep⟩
          · intro _
            exact Or.inl (he ▸ restorePostRow_postStats_insert s k v now maxAge hid
              (fun hc => hne (he.symm.trans hc)) hkeep)
        · rw [restorePostRow_postStats_nokeep s k v now maxAge hid uri hkeep]
          constructor
          · rintro (h | ⟨e', he', h1, h2, h3⟩)
            · exact Or.inl h
            · exact Or.inr ⟨e', List.mem_cons_of_mem _ he', h1, h2, h3⟩
          · rintro (h | ⟨e', he', h1, h2, h3⟩)
            · exact Or.inl h
            · rcases List.mem_cons.1 he' with hh | hh
              · subst hh
                exact absurd h3 hkeep
              · exact Or.inr ⟨e', hh, h1, h2, h3⟩
    · rw [restorePostRow_postStats_ne s k v now maxAge hid uri he]
      constructor
      · rintro (h | ⟨e', he', h1, h2, h3⟩)
        · exact Or.inl h
        · exact Or.inr ⟨e', List.mem_cons_of_mem _ he', h1, h2, h3⟩
      · rintro (h | ⟨e', he', h1, h2, h3⟩)
        · exact Or.inl h
        · rcases List.mem_cons.1 he' with hh | hh
          · subst hh
            exact absurd h1 he
          · exact Or.inr ⟨e', hh, h1, h2, h3⟩

theorem restoreLikeRow_frames (s : Agg) (k : String) (v : KVValue) :
    (restoreLikeRow s k v).postStats = s.postStats ∧
    (restoreLikeRow s k v).postIdByUri = s.postIdByUri ∧
    (restoreLikeRow s k v).uriByPostId = s.uriByPostId ∧
    (restoreLikeRow s k v).nextPostId = s.nextPostId ∧
    (restoreLikeRow s k v).activeReposts = s.activeReposts := by
  unfold restoreLikeRow
  repeat' split
  all_goals try simp_all [Agg.delKey, Agg.putKey]
  all_goals repeat' split
  all_goals simp_all [Agg.delKey, Agg.putKey]

theorem restoreRepostRow_frames (s : Agg) (k : String) (v : KVValue) :
    (restoreRepostRow s k v).postStats = s.postStats ∧
    (restoreRepostRow s k v).postIdByUri = s.postIdByUri ∧
    (restoreRepostRow s k v).uriByPostId = s.uriByPostId ∧
    (restoreRepostRow s k v).nextPostId = s.nextPostId ∧
    (restoreRepostRow s k v).activeLikes = s.activeLikes := by
  unfold restoreRepostRow
  repeat' split
  all_goals try simp_all [Agg.delKey, Agg.putKey]
  all_goals repeat' split
  all_goals simp_all [Agg.delKey, Agg.putKey]

theorem restoreLikesGo_frames :
    ∀ (L : List (String × KVValue)) (s : Agg),
    (restoreLikesGo L s).postStats = s.postStats ∧
    (restoreLikesGo L s).postIdByUri = s.postIdByUri ∧
    (restoreLikesGo L s).uriByPostId = s.uriByPostId ∧
    (restoreLikesGo L s).nextPostId = s.nextPostId ∧
    (restoreLikesGo L s).activeReposts = s.activeReposts := by
  intro L
  induction L with
  | nil => intro s; simp [restoreLikesGo]
  | cons e rest ih =>
    intro s
    obtain ⟨k, v⟩ := e
    have h1 := restoreLikeRow_frames s k v
    have h2 := ih (restoreLikeRow s k v)
    exact ⟨h2.1.trans h1.1, (h2.2.1).trans h1.2.1, (h2.2.2.1).trans h1.2.2.1,
      (h2.2.2.2.1).trans h1.2.2.2.1, (h2.2.2.2.2).trans h1.2.2.2.2⟩

theorem restoreRepostsGo_frames :
    ∀ (L : List (String × KVValue)) (s : Agg),
    (restoreRepostsGo L s).postStats = s.postStats ∧
    (restoreRepostsGo L s).postIdByUri = s.postIdByUri ∧
    (restoreRepostsGo L s).uriByPostId = s.uriByPostId ∧
    (restoreRepostsGo L s).nextPostId = s.nextPostId ∧
    (restoreRepostsGo L s).activeLikes = s.activeLikes := by
  intro L
  induction L with
  | nil => intro s; simp [restoreRepostsGo]
  | cons e rest ih =>
    intro s
    obtain ⟨k, v⟩ := e
    have h1 := restoreRepostRow_frames s k v
    have h2 := ih (restoreRepostRow s k v)
    exact ⟨h2.1.trans h1.1, (h2.2.1).trans h1.2.1, (h2.2.2.1).trans h1.2.2.1,
      (h2.2.2.2.1).trans h1.2.2.2.1, (h2.2.2.2.2).trans h1.2.2.2.2⟩

theorem restorePostsGo_frames :
    ∀ (L : List (String × KVValue)) (s : Agg) (now maxAge hid : Int),
    (restorePostsGo L s now maxAge hid).1.activeLikes = s.activeLikes ∧
    (restorePostsGo L s now maxAge hid).1.activeReposts = s.activeReposts := by
  intro L
  induction L with
  | nil => intro s now maxAge hid; simp [restorePostsGo]
  | cons e rest ih =>
    intro s now maxAge hid
    obtain ⟨k, v⟩ := e
    have h1 := restorePostRow_cache_frames s k v now maxAge hid
    show ((restorePostsGo rest (restorePostRow s k v now maxAge hid).1 now maxAge
        (restorePostRow s k v now maxAge hid).2).1.activeLikes = s.activeLikes ∧ _)
    have h2 := ih (restorePostRow s k v now maxAge hid).1 now maxAge
      (restorePostRow s k v now maxAge hid).2
    exact ⟨h2.1.trans h1.1, h2.2.trans h1.2⟩

theorem mem_lruset (c : Lru) (k : String) (v : Int) (e : String × Int)
    (h : e ∈ (Lru.set c k v).store) : e ∈ c.store ∨ e = (k, v) := by
  unfold Lru.set at h
  by_cases h0 : c.maxSize = 0
  · rw [if_pos h0] at h
    exact Or.inl h
  · rw [if_neg h0] at h
    simp only at h
    split at h
    · have h2 : e ∈ adel c.store k ++ [(k, v)] := List.mem_of_mem_tail h
      rcases List.mem_append.1 h2 with h3 | h3
      · exact Or.inl (mem_adel _ _ _ h3)
      · simp at h3
        exact Or.inr (by simp [h3])
    · rcases List.mem_append.1 h with h3 | h3
      · exact Or.inl (mem_adel _ _ _ h3)
      · simp at h3
        exact Or.inr (by simp [h3])

/-- One like-recovery row either leaves the cache alone or inserts the
reference under the row's resolution conditions. -/
theorem restoreLikeRow_cache_cases (s : Agg) (k : String) (v : KVValue) :
    (restoreLikeRow s k v).activeLikes = s.activeLikes ∨
    (∃ pid u, (restoreLikeRow s k v).activeLikes = s.activeLikes.set (strDropChars k 5) pid ∧
      aget s.uriByPostId pid = some u ∧ u ≠ "" ∧ (aget s.postStats u).isSome) := by
  unfold restoreLikeRow
  cases v with
  | num n =>
    cases hu : aget s.uriByPostId n with
    | none => left; simp [hu, Agg.delKey]
    | some u =>
      by_cases hc : u ≠ "" ∧ (aget s.postStats u).isSome = true
      · right
        refine ⟨n, u, ?_, hu, hc.1, hc.2⟩
        simp [hu, hc]
      · left
        simp [hu, hc, Agg.delKey]
  | str t =>
    cases hp : aget s.postIdByUri t with
    | none => left; simp [hp, Agg.delKey]
    | some pid =>
      cases hu : aget s.uriByPostId pid with
      | none => left; simp [hp, hu, Agg.delKey, Agg.putKey]
      | some u =>
        by_cases hc : u ≠ "" ∧ (aget s.postStats u).isSome = true
        · right
          refine ⟨pid, u, ?_, hu, hc.1, hc.2⟩
          simp [hp, hu, hc, Agg.putKey]
        · left
          simp [hp, hu, hc, Agg.delKey, Agg.putKey]
  | boolVal b => left; simp [Agg.delKey]
  | null => left; simp [Agg.delKey]
  | post p => left; simp [Agg.delKey]
  | uriObj a b => left; simp [Agg.delKey]

theorem restoreRepostRow_cache_cases (s : Agg) (k : String) (v : KVValue) :
    (restoreRepostRow s k v).activeReposts = s.activeReposts ∨
    (∃ pid u, (restoreRepostRow s k v).activeReposts = s.activeReposts.set (strDropChars k 7) pid ∧
      aget s.uriByPostId pid = some u ∧ u ≠ "" ∧ (aget s.postStats u).isSome) := by
  unfold restoreRepostRow
  cases v with
  | num n =>
    cases hu : aget s.uriByPostId n with
    | none => left; simp [hu, Agg.delKey]
    | some u =>
      by_cases hc : u ≠ "" ∧ (aget s.postStats u).isSome = true
      · right
        refine ⟨n, u, ?_, hu, hc.1, hc.2⟩
        simp [hu, hc]
      · left
        simp [hu, hc, Agg.delKey]
  | str t =>
    cases hp : aget s.postIdByUri t with
    | none => left; simp [hp, Agg.delKey]
    | some pid =>
      cases hu : aget s.uriByPostId pid with
      | none => left; simp [hp, hu, Agg.delKey, Agg.putKey]
      | some u =>
        by_cases hc : u ≠ "" ∧ (aget s.postStats u).isSome = true
        · right
          refine ⟨pid, u, ?_, hu, hc.1, hc.2⟩
          simp [hp, hu, hc, Agg.putKey]
        · left
          simp [hp, hu, hc, Agg.delKey, Agg.putKey]
  | boolVal b => left; simp [Agg.delKey]
  | null => left; simp [Agg.delKey]
  | post p => left; simp [Agg.delKey]
  | uriObj a b => left; simp [Agg.delKey]

theorem restoreLikeRow_cache_sub (s : Agg) (k : String) (v : KVValue) :
    ∀ e ∈ (restoreLikeRow s k v).activeLikes.store,
      e ∈ s.activeLikes.store ∨
      (∃ u, aget s.uriByPostId e.2 = some u ∧ u ≠ "" ∧ (aget s.postStats u).isSome) := by
  intro e he
  rcases restoreLikeRow_cache_cases s k v with hc | ⟨pid, u, hc, hu, hne, hps⟩
  · rw [hc] at he
    exact Or.inl he
  · rw [hc] at he
    rcases mem_lruset _ _ _ _ he with hm | hm
    · exact Or.inl hm
    · subst hm
      exact Or.inr ⟨u, hu, hne, hps⟩

theorem restoreRepostRow_cache_sub (s : Agg) (k : String) (v : KVValue) :
    ∀ e ∈ (restoreRepostRow s k v).activeReposts.store,
      e ∈ s.activeReposts.store ∨
      (∃ u, aget s.uriByPostId e.2 = some u ∧ u ≠ "" ∧ (aget s.postStats u).isSome) := by
  intro e he
  rcases restoreRepostRow_cache_cases s k v with hc | ⟨pid, u, hc, hu, hne, hps⟩
  · rw [hc] at he
    exact Or.inl he
  · rw [hc] at he
    rcases mem_lruset _ _ _ _ he with hm | hm
    · exact Or.inl hm
    · subst hm
      exact Or.inr ⟨u, hu, hne, hps⟩

/-- Soundness of the like-cache fill during recovery: relative to the
registry and tally (which this walk never modifies), every cache entry
points at a tally entry. -/
theorem restoreLikesGo_sound :
    ∀ (L : List (String × KVValue)) (s : Agg),
    (∀ e ∈ s.activeLikes.store, ∃ u, aget s.uriByPostId e.2 = some u ∧
      (aget s.postStats u).isSome) →
    ∀ e ∈ (restoreLikesGo L s).activeLikes.store,
      ∃ u, aget s.uriByPostId e.2 = some u ∧ (aget s.postStats u).isSome := by
  intro L
  induction L with
  | nil => intro s h e he; exact h e he
  | cons row rest ih =>
    intro s h e he
    obtain ⟨k, v⟩ := row
    have hfr := restoreLikeRow_frames s k v
    have hsub := restoreLikeRow_cache_sub s k v
    have hstep : ∀ e' ∈ (restoreLikeRow s k v).activeLikes.store,
        ∃ u, aget (restoreLikeRow s k v).uriByPostId e'.2 = some u ∧
          (aget (restoreLikeRow s k v).postStats u).isSome := by
      intro e' he'
      rw [hfr.2.2.1, hfr.1]
      rcases hsub e' he' with hm | ⟨u, hu, _, hps⟩
      · exact h e' hm
      · exact ⟨u, hu, hps⟩
    have hres := ih (restoreLikeRow s k v) hstep e he
    rw [hfr.2.2.1, hfr.1] at hres
    exact hres

theorem restoreRepostsGo_sound :
    ∀ (L : List (String × KVValue)) (s : Agg),
    (∀ e ∈ s.activeReposts.store, ∃ u, aget s.uriByPostId e.2 = some u ∧
      (aget s.postStats u).isSome) →
    ∀ e ∈ (restoreRepostsGo L s).activeReposts.store,
      ∃ u, aget s.uriByPostId e.2 = some u ∧ (aget s.postStats u).isSome := by
  intro L
  induction L with
  | nil => intro s h e he; exact h e he
  | cons row rest ih =>
    intro s h e he
    obtain ⟨k, v⟩ := row
    have hfr := restoreRepostRow_frames s k v
    have hsub := restoreRepostRow_cache_sub s k v
    have hstep : ∀ e' ∈ (restoreRepostRow s k v).activeReposts.store,
        ∃ u, aget (restoreRepostRow s k v).uriByPostId e'.2 = some u ∧
          (aget (restoreRepostRow s k v).postStats u).isSome := by
      intro e' he'
      rw [hfr.2.2.1, hfr.1]
      rcases hsub e' he' with hm | ⟨u, hu, _, hps⟩
      · exact h e' hm
      · exact ⟨u, hu, hps⟩
    have hres := ih (restoreRepostRow s k v) hstep e he
    rw [hfr.2.2.1, hfr.1] at hres
    exact hres

theorem strPre_recompose (p k : String) (h : strIsPre p k = true) :
    p ++ strDropChars k p.data.length = k := by
  unfold strIsPre at h
  have hpre : p.data <+: k.data := List.isPrefixOf_iff_prefix.1 h
  rcases hpre with ⟨t, ht⟩
  cases p with
  | mk pd =>
    cases k with
    | mk kd =>
      simp only at ht
      unfold strDropChars
      show String.mk (pd ++ (kd.drop pd.length)) = String.mk kd
      rw [← ht, List.drop_left]

theorem postKey_recompose (k : String) (h : strIsPre "post:" k = true) :
    postKey (strDropChars k 5) = k := by
  have h2 := strPre_recompose "post:" k h
  rw [show ("post:" : String).data.length = 5 from by decide] at h2
  exact h2

theorem postKey_drop (u : String) : strDropChars (postKey u) 5 = u := by
  cases u with
  | mk ud =>
    unfold postKey strDropChars
    show String.mk ((("post:" : String) ++ String.mk ud).data.drop 5) = String.mk ud
    have : (("post:" : String) ++ String.mk ud).data = "post:".data ++ ud := rfl
    rw [this]
    rw [show ("post:" : String).data = ['p','o','s','t',':'] from by decide]
    rfl

theorem strIsPre_append (p u : String) : strIsPre p (p ++ u) = true := by
  unfold strIsPre
  apply List.isPrefixOf_iff_prefix.2
  exact ⟨u.data, by cases p; cases u; rfl⟩

theorem aget_of_mem_nodup {K V : Type} [DecidableEq K] (m : List (K × V))
    (hnd : (m.map Prod.fst).Nodup) (k : K) (v : V) (hm : (k, v) ∈ m) :
    aget m k = some v := by
  induction m with
  | nil => simp at hm
  | cons hd t ih =>
    obtain ⟨k', v'⟩ := hd
    simp only [List.map_cons, List.nodup_cons] at hnd
    rcases List.mem_cons.1 hm with he | he
    · have h1 : k' = k := (congrArg Prod.fst he).symm
      have h2 : v' = v := (congrArg Prod.snd he).symm
      simp [aget, h1, h2]
    · have hk : k' ≠ k := fun hc => hnd.1 (List.mem_map.2 ⟨(k, v), he, hc.symm⟩)
      simp [aget, hk]
      exact ih hnd.2 he

/-- loadState decomposes into the staged recovery states. -/
theorem loadState_decomp (kv : List (String × KVValue)) (now maxAge : Int) (lc rc : Nat) :
    loadState kv now maxAge lc rc =
      restoreRepostsGo (kvRows kv "repost:")
        (restoreLikesGo (kvRows kv "like:") (recoveryPreL kv now maxAge lc rc)) := rfl

theorem recoveryPreE_empty (kv : List (String × KVValue)) (lc rc : Nat) :
    (recoveryPreE kv lc rc).postStats = [] ∧
    (recoveryPreE kv lc rc).activeLikes = ⟨lc, []⟩ ∧
    (recoveryPreE kv lc rc).activeReposts = ⟨rc, []⟩ := by
  have h1 : (recoveryPreE kv lc rc).postStats =
      ((restorePostUrlsGo (kvRows kv "posturl:")
        (restorePostUriMappingsGo (kvRows kv "posturi:")
          (restorePostIdLookupsGo (kvRows kv "postid:")
            (loadStoredNextPostId (emptyAgg kv lc rc)).2 0).1 0).1 0).1).postStats := rfl
  have h2 : (recoveryPreE kv lc rc).activeLikes =
      ((restorePostUrlsGo (kvRows kv "posturl:")
        (restorePostUriMappingsGo (kvRows kv "posturi:")
          (restorePostIdLookupsGo (kvRows kv "postid:")
            (loadStoredNextPostId (emptyAgg kv lc rc)).2 0).1 0).1 0).1).activeLikes := rfl
  have h3 : (recoveryPreE kv lc rc).activeReposts =
      ((restorePostUrlsGo (kvRows kv "posturl:")
        (restorePostUriMappingsGo (kvRows kv "posturi:")
          (restorePostIdLookupsGo (kvRows kv "postid:")
            (loadStoredNextPostId (emptyAgg kv lc rc)).2 0).1 0).1 0).1).activeReposts := rfl
  refine ⟨?_, ?_, ?_⟩
  · rw [h1, (restorePostUrlsGo_frames _ _ _).1, (restorePostUriMappingsGo_frames _ _ _).1,
      (restorePostIdLookupsGo_frames _ _ _).1, (loadStoredNextPostId_frames _).1]
    rfl
  · rw [h2, (restorePostUrlsGo_frames _ _ _).2.1, (restorePostUriMappingsGo_frames _ _ _).2.1,
      (restorePostIdLookupsGo_frames _ _ _).2.1, (loadStoredNextPostId_frames _).2.1]
    rfl
  · rw [h3, (restorePostUrlsGo_frames _ _ _).2.2.1, (restorePostUriMappingsGo_frames _ _ _).2.2.1,
      (restorePostIdLookupsGo_frames _ _ _).2.2.1, (loadStoredNextPostId_frames _).2.2.1]
    rfl

/-- Bridge between the row-walk existential and a direct lookup of the
post: key, valid for stores without duplicate keys. -/
theorem postRows_exists_iff (kv : List (String × KVValue))
    (hnd : (kv.map Prod.fst).Nodup) (now maxAge : Int) (uri : String) :
    (∃ e ∈ kvRows kv "post:", strDropChars e.1 5 = uri ∧ uri ≠ "" ∧ keepPost e.2 now maxAge) ↔
    (uri ≠ "" ∧ ∃ v, aget kv (postKey uri) = some v ∧ keepPost v now maxAge) := by
  constructor
  · rintro ⟨⟨k, v⟩, hm, hd, hne, hk⟩
    have hf := List.mem_filter.1 hm
    have hkey : postKey uri = k := hd ▸ postKey_recompose k (by simpa using hf.2)
    refine ⟨hne, v, ?_, hk⟩
    rw [hkey]
    exact aget_of_mem_nodup kv hnd k v hf.1
  · rintro ⟨hne, v, hv, hk⟩
    refine ⟨(postKey uri, v), ?_, ?_, hne, hk⟩
    · exact List.mem_filter.2 ⟨aget_mem _ _ _ hv, by simpa using strIsPre_append "post:" uri⟩
    · exact postKey_drop uri

/-- C2: after recovery the in-memory tally holds exactly the post: rows
(for a nonempty URI suffix; the degenerate key with an empty suffix is a
malformed row that recovery deletes) whose parsed counters are not both
zero and whose age is within the retention window, and every entry of
both active caches maps its reference key to a post id whose URI is in
the tally. -/
theorem claim_C2_recovery_tally_and_caches (kv : List (String × KVValue))
    (now maxAge : Int) (lc rc : Nat) (hnd : (kv.map Prod.fst).Nodup) :
    (∀ uri, (aget (loadState kv now maxAge lc rc).postStats uri).isSome ↔
      (uri ≠ "" ∧ ∃ v, aget kv (postKey uri) = some v ∧ keepPost v now maxAge)) ∧
    (∀ e ∈ (loadState kv now maxAge lc rc).activeLikes.store,
      ∃ u, aget (loadState kv now maxAge lc rc).uriByPostId e.2 = some u ∧
        (aget (loadState kv now maxAge lc rc).postStats u).isSome) ∧
    (∀ e ∈ (loadState kv now maxAge lc rc).activeReposts.store,
      ∃ u, aget (loadState kv now maxAge lc rc).uriByPostId e.2 = some u ∧
        (aget (loadState kv now maxAge lc rc).postStats u).isSome) := by
  have hdec := loadState_decomp kv now maxAge lc rc
  have hpreL_ps : (recoveryPreL kv now maxAge lc rc).postStats =
      (restorePostsGo (kvRows kv "post:") (recoveryPreE kv lc rc) now maxAge 0).1.postStats := rfl
  have hpreL_al : (recoveryPreL kv now maxAge lc rc).activeLikes =
      (restorePostsGo (kvRows kv "post:") (recoveryPreE kv lc rc) now maxAge 0).1.activeLikes := rfl
  have hpreL_ar : (recoveryPreL kv now maxAge lc rc).activeReposts =
      (restorePostsGo (kvRows kv "post:") (recoveryPreE kv lc rc) now maxAge 0).1.activeReposts := rfl
  have hG := restoreRepostsGo_frames (kvRows kv "repost:")
    (restoreLikesGo (kvRows kv "like:") (recoveryPreL kv now maxAge lc rc))
  have hF := restoreLikesGo_frames (kvRows kv "like:") (recoveryPreL kv now maxAge lc rc)
  have hE := restorePostsGo_frames (kvRows kv "post:") (recoveryPreE kv lc rc) now maxAge 0
  have hemp := recoveryPreE_empty kv lc rc
  have hfinal_ps : (loadState kv now maxAge lc rc).postStats =
      (restorePostsGo (kvRows kv "post:") (recoveryPreE kv lc rc) now maxAge 0).1.postStats := by
    rw [hdec, hG.1, hF.1, hpreL_ps]
  have hfinal_ubpi : (loadState kv now maxAge lc rc).uriByPostId =
      (recoveryPreL kv now maxAge lc rc).uriByPostId := by
    rw [hdec, hG.2.2.1, hF.2.2.1]
  refine ⟨?_, ?_, ?_⟩
  · intro uri
    rw [hfinal_ps, restorePostsGo_mem now maxAge (kvRows kv "post:") (recoveryPreE kv lc rc) 0 uri]
    rw [hemp.1]
    show (aget ([] : List (String × PostStats)) uri).isSome = true ∨ _ ↔ _
    rw [show (aget ([] : List (String × PostStats)) uri) = none from rfl]
    simp only [Option.isSome_none, Bool.false_eq_true, false_or]
    exact postRows_exists_iff kv hnd now maxAge uri
  · intro e he
    have he' : e ∈ (restoreLikesGo (kvRows kv "like:")
        (recoveryPreL kv now maxAge lc rc)).activeLikes.store := by
      rw [hdec, hG.2.2.2.2] at he
      exact he
    have hinit : ∀ e' ∈ (recoveryPreL kv now maxAge lc rc).activeLikes.store,
        ∃ u, aget (recoveryPreL kv now maxAge lc rc).uriByPostId e'.2 = some u ∧
          (aget (recoveryPreL kv now maxAge lc rc).postStats u).isSome := by
      intro e' he''
      rw [hpreL_al, hE.1, hemp.2.1] at he''
      simp at he''
    rcases restoreLikesGo_sound (kvRows kv "like:") (recoveryPreL kv now maxAge lc rc)
      hinit e he' with ⟨u, hu, hps⟩
    refine ⟨u, ?_, ?_⟩
    · rw [hfinal_ubpi]
      exact hu
    · rw [hfinal_ps, ← hpreL_ps]
      exact hps
  · intro e he
    have hpreF_ar : (restoreLikesGo (kvRows kv "like:")
        (recoveryPreL kv now maxAge lc rc)).activeReposts.store = [] := by
      rw [hF.2.2.2.2, hpreL_ar, hE.2, hemp.2.2]
    have he' : e ∈ (restoreRepostsGo (kvRows kv "repost:")
        (restoreLikesGo (kvRows kv "like:") (recoveryPreL kv now maxAge lc rc))).activeReposts.store := by
      rw [hdec] at he
      exact he
    have hinit : ∀ e' ∈ (restoreLikesGo (kvRows kv "like:")
        (recoveryPreL kv now maxAge lc rc)).activeReposts.store,
        ∃ u, aget (restoreLikesGo (kvRows kv "like:")
          (recoveryPreL kv now maxAge lc rc)).uriByPostId e'.2 = some u ∧
          (aget (restoreLikesGo (kvRows kv "like:")
            (recoveryPreL kv now maxAge lc rc)).postStats u).isSome := by
      intro e' he''
      rw [hpreF_ar] at he''
      simp at he''
    rcases restoreRepostsGo_sound (kvRows kv "repost:") _ hinit e he' with ⟨u, hu, hps⟩
    refine ⟨u, ?_, ?_⟩
    · rw [hfinal_ubpi, ← hF.2.2.1]
      exact hu
    · rw [hfinal_ps, ← hpreL_ps, ← hF.1]
      exact hps

/-- Witness for C2 on a one-row store. -/
theorem claim_C2_witness :
    (aget (loadState c2Kv 60 100 1000 1000).postStats
      "at://did:p/app.bsky.feed.post/r1").isSome := by
  exact ((claim_C2_recovery_tally_and_caches c2Kv 60 100 1000 1000 (by decide)).1
    "at://did:p/app.bsky.feed.post/r1").2
    ⟨by decide, KVValue.post (mkPP 3 1 50 (some 7)), by decide, by decide⟩

/-- C6 counterexample: a single stale post: row stores id 100; recovery
drops the row without counting its id, so nextPostId comes out as 1 while
the claimed formula demands 101. -/
theorem claim_C6_counterexample :
    (loadState c6Kv 100 10 1000 1000).nextPostId = 1 ∧ specC6Next c6Kv = 101 ∧
    (loadState c6Kv 100 10 1000 1000).nextPostId ≠ specC6Next c6Kv := by decide

/-- The postid: walk only grows its running maximum, and every id it
registers is bounded by that maximum (joined with any prior bound b). -/
theorem restorePostIdLookupsGo_bound :
    ∀ (L : List (String × KVValue)) (s : Agg) (m b : Int),
    (∀ e ∈ s.postIdByUri, e.2 ≤ max b m) →
    m ≤ (restorePostIdLookupsGo L s m).2 ∧
    (∀ e ∈ (restorePostIdLookupsGo L s m).1.postIdByUri,
      e.2 ≤ max b (restorePostIdLookupsGo L s m).2) := by
  intro L
  induction L with
  | nil =>
    intro s m b hb
    exact ⟨le_refl m, hb⟩
  | cons e rest ih =>
    intro s m b hb
    obtain ⟨k, v⟩ := e
    unfold restorePostIdLookupsGo
    cases hv : kvToNum v with
    | none =>
      simp only [hv]
      exact ih (s.delKey k) m b hb
    | some n =>
      simp only [hv]
      by_cases hc : strDropChars k 7 ≠ "" ∧ 0 < n
      · rw [if_pos hc]
        have hb' : ∀ e ∈ (aset s.postIdByUri (strDropChars k 7) n), e.2 ≤ max b (max m n) := by
          intro e he
          rcases mem_aset _ _ _ e he with h | h
          · exact le_trans (hb e h) (max_le_max le_rfl (le_max_left m n))
          · rw [h]
            exact le_max_of_le_right (le_max_right m n)
        have hrec := ih { s with postIdByUri := aset s.postIdByUri (strDropChars k 7) n }
          (max m n) b hb'
        exact ⟨le_trans (le_max_left m n) hrec.1, hrec.2⟩
      · rw [if_neg hc]
        exact ih (s.delKey k) m b hb

/-- posturi: walk, one-step equation for a malformed row (bad key id,
unusable value or empty URI): the row is deleted and the walk goes on. -/
theorem restorePostUriMappingsGo_step_del (rest : List (String × KVValue))
    (k : String) (v : KVValue) (s : Agg) (m : Int)
    (hbad : parseKeyId (strDropChars k 8) = none ∨
      (∃ idv, parseKeyId (strDropChars k 8) = some idv ∧ idv ≤ 0) ∨
      (postUriValue v).1 = none ∨ (postUriValue v).1 = some "") :
    restorePostUriMappingsGo ((k, v) :: rest) s m =
    restorePostUriMappingsGo rest (s.delKey k) m := by
  conv_lhs => unfold restorePostUriMappingsGo
  rcases hbad with h | ⟨idv, h, h0⟩ | h | h
  · simp [h]
  · have hn : ¬ (0 : Int) < idv := by omega
    simp [h, if_pos h0]
  · obtain ⟨uo, uf, huv⟩ : ∃ a c, postUriValue v = (a, c) :=
      ⟨(postUriValue v).1, (postUriValue v).2, rfl⟩
    rw [huv] at h
    simp only [huv]
    cases hkid : parseKeyId (strDropChars k 8) with
    | none => simp
    | some idv =>
      by_cases h0 : idv ≤ 0
      · simp [h0]
      · simp only at h
        simp [h0, h]
  · obtain ⟨uo, uf, huv⟩ : ∃ a c, postUriValue v = (a, c) :=
      ⟨(postUriValue v).1, (postUriValue v).2, rfl⟩
    rw [huv] at h
    simp only [huv]
    cases hkid : parseKeyId (strDropChars k 8) with
    | none => simp
    | some idv =>
      by_cases h0 : idv ≤ 0
      · simp [h0]
      · simp only at h
        simp [h0, h]

/-- posturi: walk, one-step equation for a usable row whose URI already
has a forward mapping: only uriByPostId (and possibly the URL cache) is
updated. -/
theorem restorePostUriMappingsGo_step_mapped (rest : List (String × KVValue))
    (k : String) (v : KVValue) (s : Agg) (m idv : Int) (uri : String)
    (urlField : Option (Option String))
    (hkid : parseKeyId (strDropChars k 8) = some idv) (h0 : ¬ idv ≤ 0)
    (huv : postUriValue v = (some uri, urlField)) (he : ¬ uri = "")
    (hmem : (aget s.postIdByUri uri).isSome) :
    restorePostUriMappingsGo ((k, v) :: rest) s m =
    restorePostUriMappingsGo rest
      (match urlField with
       | some url => { s with
           uriByPostId := aset s.uriByPostId idv uri
           postUrlById := aset s.postUrlById idv url }
       | none => { s with uriByPostId := aset s.uriByPostId idv uri })
      (max m idv) := by
  conv_lhs => unfold restorePostUriMappingsGo
  cases urlField <;> simp [hkid, h0, huv, he, hmem]

/-- posturi: walk, one-step equation for a usable row whose URI has no
forward mapping yet: both directions (and possibly the URL cache) are
updated. -/
theorem restorePostUriMappingsGo_step_fresh (rest : List (String × KVValue))
    (k : String) (v : KVValue) (s : Agg) (m idv : Int) (uri : String)
    (urlField : Option (Option String))
    (hkid : parseKeyId (strDropChars k 8) = some idv) (h0 : ¬ idv ≤ 0)
    (huv : postUriValue v = (some uri, urlField)) (he : ¬ uri = "")
    (hmem : ¬ (aget s.postIdByUri uri).isSome) :
    restorePostUriMappingsGo ((k, v) :: rest) s m =
    restorePostUriMappingsGo rest
      (match urlField with
       | some url => { s with
           uriByPostId := aset s.uriByPostId idv uri
           postIdByUri := aset s.postIdByUri uri idv
           postUrlById := aset s.postUrlById idv url }
       | none => { s with
           uriByPostId := aset s.uriByPostId idv uri
           postIdByUri := aset s.postIdByUri uri idv })
      (max m idv) := by
  conv_lhs => unfold restorePostUriMappingsGo
  cases urlField <;> simp [hkid, h0, huv, he, hmem]

/-- The posturi: walk only grows its running maximum, and every id it
registers on either map direction is bounded by that maximum (joined with
any prior bound b). -/
theorem restorePostUriMappingsGo_bound :
    ∀ (L : List (String × KVValue)) (s : Agg) (m b : Int),
    (∀ e ∈ s.postIdByUri, e.2 ≤ max b m) →
    (∀ e ∈ s.uriByPostId, e.1 ≤ max b m) →
    m ≤ (restorePostUriMappingsGo L s m).2 ∧
    (∀ e ∈ (restorePostUriMappingsGo L s m).1.postIdByUri,
      e.2 ≤ max b (restorePostUriMappingsGo L s m).2) ∧
    (∀ e ∈ (restorePostUriMappingsGo L s m).1.uriByPostId,
      e.1 ≤ max b (restorePostUriMappingsGo L s m).2) := by
  intro L
  induction L with
  | nil =>
    intro s m b hp hu
    exact ⟨le_refl m, hp, hu⟩
  | cons e rest ih =>
    intro s m b hp hu
    obtain ⟨k, v⟩ := e
    cases hkid : parseKeyId (strDropChars k 8) with
    | none =>
      rw [restorePostUriMappingsGo_step_del rest k v s m (Or.inl hkid)]
      exact ih (s.delKey k) m b hp hu
    | some idv =>
      by_cases h0 : idv ≤ 0
      · rw [restorePostUriMappingsGo_step_del rest k v s m (Or.inr (Or.inl ⟨idv, hkid, h0⟩))]
        exact ih (s.delKey k) m b hp hu
      · obtain ⟨uriOpt, urlField, huv⟩ : ∃ a c, postUriValue v = (a, c) :=
          ⟨(postUriValue v).1, (postUriValue v).2, rfl⟩
        cases uriOpt with
        | none =>
          rw [restorePostUriMappingsGo_step_del rest k v s m
            (Or.inr (Or.inr (Or.inl (by rw [huv]))))]
          exact ih (s.delKey k) m b hp hu
        | some uri =>
          by_cases he : uri = ""
          · rw [restorePostUriMappingsGo_step_del rest k v s m
              (Or.inr (Or.inr (Or.inr (by rw [huv, he]))))]
            exact ih (s.delKey k) m b hp hu
          · have hp1 : ∀ e ∈ s.postIdByUri, e.2 ≤ max b (max m idv) :=
              fun e hme => le_trans (hp e hme) (max_le_max le_rfl (le_max_left m idv))
            have hp2 : ∀ e ∈ aset s.postIdByUri uri idv, e.2 ≤ max b (max m idv) := by
              intro e hme
              rcases mem_aset _ _ _ e hme with h | h
              · exact hp1 e h
              · rw [h]
                exact le_max_of_le_right (le_max_right m idv)
            have hu' : ∀ e ∈ aset s.uriByPostId idv uri, e.1 ≤ max b (max m idv) := by
              intro e hme
              rcases mem_aset _ _ _ e hme with h | h
              · exact le_trans (hu e h) (max_le_max le_rfl (le_max_left m idv))
              · rw [h]
                exact le_max_of_le_right (le_max_right m idv)
            by_cases hmem : (aget s.postIdByUri uri).isSome
            · rw [restorePostUriMappingsGo_step_mapped rest k v s m idv uri urlField
                hkid h0 huv he hmem]
              cases urlField with
              | none =>
                have hrec := ih { s with uriByPostId := aset s.uriByPostId idv uri }
                  (max m idv) b hp1 hu'
                exact ⟨le_trans (le_max_left m idv) hrec.1, hrec.2.1, hrec.2.2⟩
              | some url =>
                have hrec := ih { s with
                    uriByPostId := aset s.uriByPostId idv uri
                    postUrlById := aset s.postUrlById idv url }
                  (max m idv) b hp1 hu'
                exact ⟨le_trans (le_max_left m idv) hrec.1, hrec.2.1, hrec.2.2⟩
            · rw [restorePostUriMappingsGo_step_fresh rest k v s m idv uri urlField
                hkid h0 huv he hmem]
              cases urlField with
              | none =>
                have hrec := ih { s with
                    uriByPostId := aset s.uriByPostId idv uri
                    postIdByUri := aset s.postIdByUri uri idv }
                  (max m idv) b hp2 hu'
                exact ⟨le_trans (le_max_left m idv) hrec.1, hrec.2.1, hrec.2.2⟩
              | some url =>
                have hrec := ih { s with
                    uriByPostId := aset s.uriByPostId idv uri
                    postIdByUri := aset s.postIdByUri uri idv
                    postUrlById := aset s.postUrlById idv url }
                  (max m idv) b hp2 hu'
                exact ⟨le_trans (le_max_left m idv) hrec.1, hrec.2.1, hrec.2.2⟩

/-- restorePosts row, one-step equation: an empty URI suffix deletes the
row. -/
theorem restorePostRow_step_empty (s : Agg) (k : String) (v : KVValue)
    (now maxAge hid : Int) (he : strDropChars k 5 = "") :
    restorePostRow s k v now maxAge hid = (s.delKey k, hid) := by
  conv_lhs => unfold restorePostRow
  rw [if_pos he]

/-- restorePosts row, one-step equation: a falsy value deletes the row. -/
theorem restorePostRow_step_falsy (s : Agg) (k : String) (v : KVValue)
    (now maxAge hid : Int) (he : ¬ strDropChars k 5 = "")
    (ht : kvTruthy v = false) :
    restorePostRow s k v now maxAge hid = (s.delKey k, hid) := by
  conv_lhs => unfold restorePostRow
  simp [he, ht]

/-- restorePosts row, one-step equation: a dropped row (zero counters or
stale) whose id resolves deletes the row and its id mappings. -/
theorem restorePostRow_step_drop_id (s : Agg) (k : String) (v : KVValue)
    (now maxAge hid : Int) (L R T : Int) (P : Option Int) (i : Int)
    (he : ¬ strDropChars k 5 = "") (ht : kvTruthy v = true)
    (hp4 : parsePostRow v now = (L, R, T, P))
    (hdrop : (L = 0 ∧ R = 0) ∨ (¬ (L = 0 ∧ R = 0) ∧ maxAge < now - T))
    (ho : P = some i ∨ (P = none ∧ aget s.postIdByUri (strDropChars k 5) = some i)) :
    restorePostRow s k v now maxAge hid =
      (removePostId (s.delKey k) (strDropChars k 5) i, hid) := by
  conv_lhs => unfold restorePostRow
  rcases hdrop with hz | ⟨hz, hst⟩
  · rcases ho with hP | ⟨hP, hag⟩ <;>
      simp [he, ht, hp4, hz, hP, Option.orElse, Agg.delKey, hP]
    · simp_all [Agg.delKey]
  · rcases ho with hP | ⟨hP, hag⟩ <;>
      simp [he, ht, hp4, hz, hst, hP, Option.orElse, Agg.delKey]
    · simp_all [Agg.delKey]

/-- restorePosts row, one-step equation: a dropped row (zero counters or
stale) with no resolvable id only deletes the row. -/
theorem restorePostRow_step_drop_noid (s : Agg) (k : String) (v : KVValue)
    (now maxAge hid : Int) (L R T : Int) (P : Option Int)
    (he : ¬ strDropChars k 5 = "") (ht : kvTruthy v = true)
    (hp4 : parsePostRow v now = (L, R, T, P))
    (hdrop : (L = 0 ∧ R = 0) ∨ (¬ (L = 0 ∧ R = 0) ∧ maxAge < now - T))
    (hP : P = none) (hag : aget s.postIdByUri (strDropChars k 5) = none) :
    restorePostRow s k v now maxAge hid = (s.delKey k, hid) := by
  conv_lhs => unfold restorePostRow
  rcases hdrop with hz | ⟨hz, hst⟩ <;>
    simp_all [Option.orElse, Agg.delKey]

/-- restorePosts row, one-step equation: a kept row whose URI is already
in the registry reuses that id. -/
theorem restorePostRow_step_keep_mapped (s : Agg) (k : String) (v : KVValue)
    (now maxAge hid : Int) (L R T : Int) (P : Option Int) (i : Int)
    (he : ¬ strDropChars k 5 = "") (ht : kvTruthy v = true)
    (hp4 : parsePostRow v now = (L, R, T, P))
    (hz : ¬ (L = 0 ∧ R = 0)) (hst : ¬ maxAge < now - T)
    (hmem : aget s.postIdByUri (strDropChars k 5) = some i) :
    restorePostRow s k v now maxAge hid =
      (postRowFinish
        (postRowUrlFill { s with uriByPostId := aset s.uriByPostId i (strDropChars k 5) }
          (strDropChars k 5) i)
        (strDropChars k 5) v L R T i, max hid i) := by
  conv_lhs => unfold restorePostRow
  simp [he, ht, hp4, hz, hst, hmem, postRowUrlFill, postRowFinish, mkPS, mkPP]

/-- restorePosts row, one-step equation: a kept row unknown to the
registry but carrying a persisted id registers that id on both map
directions. -/
theorem restorePostRow_step_keep_persisted (s : Agg) (k : String) (v : KVValue)
    (now maxAge hid : Int) (L R T : Int) (p : Int)
    (he : ¬ strDropChars k 5 = "") (ht : kvTruthy v = true)
    (hp4 : parsePostRow v now = (L, R, T, some p))
    (hz : ¬ (L = 0 ∧ R = 0)) (hst : ¬ maxAge < now - T)
    (hmem : aget s.postIdByUri (strDropChars k 5) = none) :
    restorePostRow s k v now maxAge hid =
      (postRowFinish
        (postRowUrlFill
          { s with
            postIdByUri := aset s.postIdByUri (strDropChars k 5) p
            uriByPostId := aset (aset s.uriByPostId p (strDropChars k 5)) p (strDropChars k 5) }
          (strDropChars k 5) p)
        (strDropChars k 5) v L R T p, max hid p) := by
  conv_lhs => unfold restorePostRow
  simp [he, ht, hp4, hz, hst, hmem, postRowUrlFill, postRowFinish, mkPS, mkPP]

/-- restorePosts row, one-step equation: a kept row unknown to the
registry with no persisted id allocates a fresh id. -/
theorem restorePostRow_step_keep_alloc (s : Agg) (k : String) (v : KVValue)
    (now maxAge hid : Int) (L R T : Int)
    (he : ¬ strDropChars k 5 = "") (ht : kvTruthy v = true)
    (hp4 : parsePostRow v now = (L, R, T, none))
    (hz : ¬ (L = 0 ∧ R = 0)) (hst : ¬ maxAge < now - T)
    (hmem : aget s.postIdByUri (strDropChars k 5) = none) :
    restorePostRow s k v now maxAge hid =
      (postRowFinish (allocatePostId s (strDropChars k 5)).2
        (strDropChars k 5) v L R T (allocatePostId s (strDropChars k 5)).1,
       max hid (allocatePostId s (strDropChars k 5)).1) := by
  obtain ⟨pid, s2, hall⟩ : ∃ a c, allocatePostId s (strDropChars k 5) = (a, c) :=
    ⟨(allocatePostId s (strDropChars k 5)).1, (allocatePostId s (strDropChars k 5)).2, rfl⟩
  conv_lhs => unfold restorePostRow
  simp [he, ht, hp4, hz, hst, hmem, hall, postRowFinish, mkPS, mkPP]

theorem idsLE_mono (s : Agg) (b b' : Int) (hb : b ≤ b') (h : idsLE s b) : idsLE s b' :=
  ⟨fun e he => le_trans (h.1 e he) hb,
   fun e he => le_trans (h.2.1 e he) hb,
   fun e he => le_trans (h.2.2 e he) hb⟩

theorem idsLE_removePostId (s : Agg) (u : String) (i : Int) (b : Int)
    (h : idsLE s b) : idsLE (removePostId s u i) b := by
  refine ⟨?_, ?_, ?_⟩
  · rw [removePostId_postStats]
    exact h.1
  · rw [(removePostId_maps s u i).1]
    exact fun e he => h.2.1 e (mem_adel _ _ _ he)
  · rw [(removePostId_maps s u i).2]
    exact fun e he => h.2.2 e (mem_adel _ _ _ he)

theorem postRowUrlFill_shape (s : Agg) (uri : String) (i : Int) :
    (postRowUrlFill s uri i).postStats = s.postStats ∧
    (postRowUrlFill s uri i).postIdByUri = s.postIdByUri ∧
    (postRowUrlFill s uri i).uriByPostId = s.uriByPostId ∧
    (postRowUrlFill s uri i).nextPostId = s.nextPostId := by
  unfold postRowUrlFill
  by_cases hc : (aget s.postUrlById i).isSome <;> simp [hc]

theorem postRowFinish_shape (s : Agg) (uri : String) (v : KVValue)
    (likes reposts lastUpdated postId : Int) :
    (postRowFinish s uri v likes reposts lastUpdated postId).postStats =
      aset s.postStats uri (mkPS likes reposts lastUpdated postId) ∧
    (postRowFinish s uri v likes reposts lastUpdated postId).postIdByUri = s.postIdByUri ∧
    (postRowFinish s uri v likes reposts lastUpdated postId).uriByPostId = s.uriByPostId ∧
    (postRowFinish s uri v likes reposts lastUpdated postId).nextPostId = s.nextPostId := by
  unfold postRowFinish Agg.putKey
  by_cases hc : v ≠ KVValue.post (mkPP likes reposts lastUpdated (some postId)) <;> simp [hc]

theorem idsLE_finish (s : Agg) (uri : String) (v : KVValue)
    (likes reposts lastUpdated postId b : Int) (h : idsLE s b) (hi : postId ≤ b) :
    idsLE (postRowFinish s uri v likes reposts lastUpdated postId) b := by
  obtain ⟨h1, h2, h3, _⟩ := postRowFinish_shape s uri v likes reposts lastUpdated postId
  refine ⟨?_, ?_, ?_⟩
  · rw [h1]
    intro e he
    rcases mem_aset _ _ _ e he with hm | hm
    · exact h.1 e hm
    · rw [hm]
      exact hi
  · rw [h2]
    exact h.2.1
  · rw [h3]
    exact h.2.2

theorem allocate_fresh_shape (s : Agg) (u : String) (h : aget s.postIdByUri u = none) :
    (allocatePostId s u).1 = s.nextPostId ∧
    (allocatePostId s u).2.nextPostId = s.nextPostId + 1 ∧
    (allocatePostId s u).2.postStats = s.postStats ∧
    (allocatePostId s u).2.postIdByUri = aset s.postIdByUri u s.nextPostId ∧
    (allocatePostId s u).2.uriByPostId = aset s.uriByPostId s.nextPostId u := by
  unfold allocatePostId rememberPostId Agg.putKey Agg.delKey
  cases toPostUrl u <;> simp [h]

/-- One restorePosts row never lowers nextPostId or the running highest
id, and keeps every registered id below max(nextPostId - 1, highest). -/
theorem restorePostRow_bound (s : Agg) (k : String) (v : KVValue)
    (now maxAge hid : Int) (h : idsLE s (max (s.nextPostId - 1) hid)) :
    s.nextPostId ≤ (restorePostRow s k v now maxAge hid).1.nextPostId ∧
    hid ≤ (restorePostRow s k v now maxAge hid).2 ∧
    idsLE (restorePostRow s k v now maxAge hid).1
      (max ((restorePostRow s k v now maxAge hid).1.nextPostId - 1)
        (restorePostRow s k v now maxAge hid).2) := by
  by_cases he : strDropChars k 5 = ""
  · rw [restorePostRow_step_empty s k v now maxAge hid he]
    exact ⟨le_refl _, le_refl _, h⟩
  · cases ht : kvTruthy v with
    | false =>
      rw [restorePostRow_step_falsy s k v now maxAge hid he ht]
      exact ⟨le_refl _, le_refl _, h⟩
    | true =>
      obtain ⟨L, R, T, P, hp4⟩ : ∃ a b c d, parsePostRow v now = (a, b, c, d) :=
        ⟨(parsePostRow v now).1, (parsePostRow v now).2.1, (parsePostRow v now).2.2.1,
         (parsePostRow v now).2.2.2, rfl⟩
      by_cases hz : L = 0 ∧ R = 0
      · cases hP : P with
        | some i =>
          rw [restorePostRow_step_drop_id s k v now maxAge hid L R T P i he ht hp4
            (Or.inl hz) (Or.inl hP)]
          exact ⟨le_refl _, le_refl _, idsLE_removePostId _ _ _ _ h⟩
        | none =>
          cases hag : aget s.postIdByUri (strDropChars k 5) with
          | some i =>
            rw [restorePostRow_step_drop_id s k v now maxAge hid L R T P i he ht hp4
              (Or.inl hz) (Or.inr ⟨hP, hag⟩)]
            exact ⟨le_refl _, le_refl _, idsLE_removePostId _ _ _ _ h⟩
          | none =>
            rw [restorePostRow_step_drop_noid s k v now maxAge hid L R T P he ht hp4
              (Or.inl hz) hP hag]
            exact ⟨le_refl _, le_refl _, h⟩
      · by_cases hst : maxAge < now - T
        · cases hP : P with
          | some i =>
            rw [restorePostRow_step_drop_id s k v now maxAge hid L R T P i he ht hp4
              (Or.inr ⟨hz, hst⟩) (Or.inl hP)]
            exact ⟨le_refl _, le_refl _, idsLE_removePostId _ _ _ _ h⟩
          | none =>
            cases hag : aget s.postIdByUri (strDropChars k 5) with
            | some i =>
              rw [restorePostRow_step_drop_id s k v now maxAge hid L R T P i he ht hp4
                (Or.inr ⟨hz, hst⟩) (Or.inr ⟨hP, hag⟩)]
              exact ⟨le_refl _, le_refl _, idsLE_removePostId _ _ _ _ h⟩
            | none =>
              rw [restorePostRow_step_drop_noid s k v now maxAge hid L R T P he ht hp4
                (Or.inr ⟨hz, hst⟩) hP hag]
              exact ⟨le_refl _, le_refl _, h⟩
        · cases hmem : aget s.postIdByUri (strDropChars k 5) with
          | some i =>
            rw [restorePostRow_step_keep_mapped s k v now maxAge hid L R T P i
              he ht hp4 hz hst hmem]
            dsimp only
            have hus := postRowUrlFill_shape
              { s with uriByPostId := aset s.uriByPostId i (strDropChars k 5) }
              (strDropChars k 5) i
            have hfs := postRowFinish_shape
              (postRowUrlFill { s with uriByPostId := aset s.uriByPostId i (strDropChars k 5) }
                (strDropChars k 5) i)
              (strDropChars k 5) v L R T i
            have hibound : i ≤ max (s.nextPostId - 1) hid :=
              h.2.1 (strDropChars k 5, i) (aget_mem _ _ _ hmem)
            have hnext : (postRowFinish
                (postRowUrlFill { s with uriByPostId := aset s.uriByPostId i (strDropChars k 5) }
                  (strDropChars k 5) i)
                (strDropChars k 5) v L R T i).nextPostId = s.nextPostId := by
              rw [hfs.2.2.2, hus.2.2.2]
            refine ⟨hnext.ge, le_max_left hid i, ?_⟩
            rw [hnext]
            refine idsLE_finish _ _ _ _ _ _ _ _ ⟨?_, ?_, ?_⟩ (by omega)
            · rw [hus.1]
              intro e hme
              have := h.1 e hme
              omega
            · rw [hus.2.1]
              intro e hme
              have := h.2.1 e hme
              omega
            · rw [hus.2.2.1]
              intro e hme
              rcases mem_aset _ _ _ e hme with hm | hm
              · have := h.2.2 e hm
                omega
              · rw [hm]
                dsimp only
                omega
          | none =>
            cases hP : P with
            | some p =>
              rw [hP] at hp4
              rw [restorePostRow_step_keep_persisted s k v now maxAge hid L R T p
                he ht hp4 hz hst hmem]
              dsimp only
              have hus := postRowUrlFill_shape
                { s with
                  postIdByUri := aset s.postIdByUri (strDropChars k 5) p
                  uriByPostId := aset (aset s.uriByPostId p (strDropChars k 5)) p
                    (strDropChars k 5) }
                (strDropChars k 5) p
              have hfs := postRowFinish_shape
                (postRowUrlFill
                  { s with
                    postIdByUri := aset s.postIdByUri (strDropChars k 5) p
                    uriByPostId := aset (aset s.uriByPostId p (strDropChars k 5)) p
                      (strDropChars k 5) }
                  (strDropChars k 5) p)
                (strDropChars k 5) v L R T p
              have hnext : (postRowFinish
                  (postRowUrlFill
                    { s with
                      postIdByUri := aset s.postIdByUri (strDropChars k 5) p
                      uriByPostId := aset (aset s.uriByPostId p (strDropChars k 5)) p
                        (strDropChars k 5) }
                    (strDropChars k 5) p)
                  (strDropChars k 5) v L R T p).nextPostId = s.nextPostId := by
                rw [hfs.2.2.2, hus.2.2.2]
              refine ⟨hnext.ge, le_max_left hid p, ?_⟩
              rw [hnext]
              refine idsLE_finish _ _ _ _ _ _ _ _ ⟨?_, ?_, ?_⟩ (by omega)
              · rw [hus.1]
                intro e hme
                have := h.1 e hme
                omega
              · rw [hus.2.1]
                intro e hme
                rcases mem_aset _ _ _ e hme with hm | hm
                · have := h.2.1 e hm
                  omega
                · rw [hm]
                  dsimp only
                  omega
              · rw [hus.2.2.1]
                intro e hme
                rcases mem_aset _ _ _ e hme with hm | hm
                · rcases mem_aset _ _ _ e hm with hm2 | hm2
                  · have := h.2.2 e hm2
                    omega
                  · rw [hm2]
                    dsimp only
                    omega
                · rw [hm]
                  dsimp only
                  omega
            | none =>
              rw [hP] at hp4
              rw [restorePostRow_step_keep_alloc s k v now maxAge hid L R T
                he ht hp4 hz hst hmem]
              dsimp only
              have hfr := allocate_fresh_shape s (strDropChars k 5) hmem
              have hfs := postRowFinish_shape (allocatePostId s (strDropChars k 5)).2
                (strDropChars k 5) v L R T (allocatePostId s (strDropChars k 5)).1
              have hnext : (postRowFinish (allocatePostId s (strDropChars k 5)).2
                  (strDropChars k 5) v L R T
                  (allocatePostId s (strDropChars k 5)).1).nextPostId =
                  s.nextPostId + 1 := by
                rw [hfs.2.2.2, hfr.2.1]
              refine ⟨?_, le_max_left hid _, ?_⟩
              · rw [hnext]
                omega
              · rw [hnext, hfr.1]
                refine idsLE_finish _ _ _ _ _ _ _ _ ⟨?_, ?_, ?_⟩ (by omega)
                · rw [hfr.2.2.1]
                  intro e hme
                  have := h.1 e hme
                  omega
                · rw [hfr.2.2.2.1]
                  intro e hme
                  rcases mem_aset _ _ _ e hme with hm | hm
                  · have := h.2.1 e hm
                    omega
                  · rw [hm]
                    dsimp only
                    omega
                · rw [hfr.2.2.2.2]
                  intro e hme
                  rcases mem_aset _ _ _ e hme with hm | hm
                  · have := h.2.2 e hm
                    omega
                  · rw [hm]
                    dsimp only
                    omega

/-- The restorePosts walk never lowers nextPostId or the running highest
id, and keeps every registered id below max(nextPostId - 1, highest). -/
theorem restorePostsGo_bound (now maxAge : Int) :
    ∀ (L : List (String × KVValue)) (s : Agg) (hid : Int),
    idsLE s (max (s.nextPostId - 1) hid) →
    s.nextPostId ≤ (restorePostsGo L s now maxAge hid).1.nextPostId ∧
    hid ≤ (restorePostsGo L s now maxAge hid).2 ∧
    idsLE (restorePostsGo L s now maxAge hid).1
      (max ((restorePostsGo L s now maxAge hid).1.nextPostId - 1)
        (restorePostsGo L s now maxAge hid).2) := by
  intro L
  induction L with
  | nil =>
    intro s hid h
    exact ⟨le_refl _, le_refl _, h⟩
  | cons e rest ih =>
    intro s hid h
    obtain ⟨k, v⟩ := e
    show s.nextPostId ≤ (restorePostsGo rest (restorePostRow s k v now maxAge hid).1 now maxAge
        (restorePostRow s k v now maxAge hid).2).1.nextPostId ∧ _ ∧ _
    have hrow := restorePostRow_bound s k v now maxAge hid h
    have hrec := ih (restorePostRow s k v now maxAge hid).1
      (restorePostRow s k v now maxAge hid).2 hrow.2.2
    exact ⟨le_trans hrow.1 hrec.1, le_trans hrow.2.1 hrec.2.1, hrec.2.2⟩

/-- C6 (amended): after recovery nextPostId is at least 1, at least the
stored meta:nextPostId value, and strictly greater than every id
registered in the tally or in either registry direction; allocatePostId
keeps every allocated id strictly below nextPostId.  (The claimed
formula max(stored, max_id + 1, 1) over ALL rows fails: ids of rows that
recovery drops are not counted — see the counterexample.) -/
theorem claim_C6_next_id_dominates (kv : List (String × KVValue)) (now maxAge : Int)
    (lc rc : Nat) :
    1 ≤ (loadState kv now maxAge lc rc).nextPostId ∧
    (loadStoredNextPostId (emptyAgg kv lc rc)).1.getD 0 ≤
      (loadState kv now maxAge lc rc).nextPostId ∧
    idsLE (loadState kv now maxAge lc rc) ((loadState kv now maxAge lc rc).nextPostId - 1) ∧
    (∀ (t : Agg) (u : String), (∀ e ∈ t.postIdByUri, e.2 < t.nextPostId) →
      (allocatePostId t u).1 < (allocatePostId t u).2.nextPostId) := by
  have hbase1 : ∀ e ∈ (loadStoredNextPostId (emptyAgg kv lc rc)).2.postIdByUri,
      e.2 ≤ max (0 : Int) 0 := by
    intro e he
    rw [(loadStoredNextPostId_frames (emptyAgg kv lc rc)).2.2.2.1] at he
    simp [emptyAgg] at he
  have hB := restorePostIdLookupsGo_bound (kvRows kv "postid:")
    (loadStoredNextPostId (emptyAgg kv lc rc)).2 0 0 hbase1
  have hBub : (restorePostIdLookupsGo (kvRows kv "postid:")
      (loadStoredNextPostId (emptyAgg kv lc rc)).2 0).1.uriByPostId = [] := by
    rw [(restorePostIdLookupsGo_frames _ _ _).2.2.2.1,
      (loadStoredNextPostId_frames _).2.2.2.2.1]
    rfl
  have hpC : ∀ e ∈ (restorePostIdLookupsGo (kvRows kv "postid:")
      (loadStoredNextPostId (emptyAgg kv lc rc)).2 0).1.postIdByUri,
      e.2 ≤ max (max 0 (restorePostIdLookupsGo (kvRows kv "postid:")
        (loadStoredNextPostId (emptyAgg kv lc rc)).2 0).2) 0 :=
    fun e he => le_trans (hB.2 e he) (le_max_left _ _)
  have huC : ∀ e ∈ (restorePostIdLookupsGo (kvRows kv "postid:")
      (loadStoredNextPostId (emptyAgg kv lc rc)).2 0).1.uriByPostId,
      e.1 ≤ max (max 0 (restorePostIdLookupsGo (kvRows kv "postid:")
        (loadStoredNextPostId (emptyAgg kv lc rc)).2 0).2) 0 := by
    intro e he
    rw [hBub] at he
    exact absurd he (List.not_mem_nil e)
  have hC := restorePostUriMappingsGo_bound (kvRows kv "posturi:")
    (restorePostIdLookupsGo (kvRows kv "postid:")
      (loadStoredNextPostId (emptyAgg kv lc rc)).2 0).1 0
    (max 0 (restorePostIdLookupsGo (kvRows kv "postid:")
      (loadStoredNextPostId (emptyAgg kv lc rc)).2 0).2) hpC huC
  have hDpi : (restorePostUrlsGo (kvRows kv "posturl:")
      (restorePostUriMappingsGo (kvRows kv "posturi:")
        (restorePostIdLookupsGo (kvRows kv "postid:")
          (loadStoredNextPostId (emptyAgg kv lc rc)).2 0).1 0).1 0).1.postIdByUri =
      (restorePostUriMappingsGo (kvRows kv "posturi:")
        (restorePostIdLookupsGo (kvRows kv "postid:")
          (loadStoredNextPostId (emptyAgg kv lc rc)).2 0).1 0).1.postIdByUri :=
    (restorePostUrlsGo_frames _ _ _).2.2.2.1
  have hDub : (restorePostUrlsGo (kvRows kv "posturl:")
      (restorePostUriMappingsGo (kvRows kv "posturi:")
        (restorePostIdLookupsGo (kvRows kv "postid:")
          (loadStoredNextPostId (emptyAgg kv lc rc)).2 0).1 0).1 0).1.uriByPostId =
      (restorePostUriMappingsGo (kvRows kv "posturi:")
        (restorePostIdLookupsGo (kvRows kv "postid:")
          (loadStoredNextPostId (emptyAgg kv lc rc)).2 0).1 0).1.uriByPostId :=
    (restorePostUrlsGo_frames _ _ _).2.2.2.2.1
  have hE_pi : (recoveryPreE kv lc rc).postIdByUri =
      (restorePostUrlsGo (kvRows kv "posturl:")
        (restorePostUriMappingsGo (kvRows kv "posturi:")
          (restorePostIdLookupsGo (kvRows kv "postid:")
            (loadStoredNextPostId (emptyAgg kv lc rc)).2 0).1 0).1 0).1.postIdByUri := rfl
  have hE_ub : (recoveryPreE kv lc rc).uriByPostId =
      (restorePostUrlsGo (kvRows kv "posturl:")
        (restorePostUriMappingsGo (kvRows kv "posturi:")
          (restorePostIdLookupsGo (kvRows kv "postid:")
            (loadStoredNextPostId (emptyAgg kv lc rc)).2 0).1 0).1 0).1.uriByPostId := rfl
  have hE_next : (recoveryPreE kv lc rc).nextPostId =
      max (max ((loadStoredNextPostId (emptyAgg kv lc rc)).1.getD 0)
        (max (max (restorePostIdLookupsGo (kvRows kv "postid:")
            (loadStoredNextPostId (emptyAgg kv lc rc)).2 0).2
          (restorePostUriMappingsGo (kvRows kv "posturi:")
            (restorePostIdLookupsGo (kvRows kv "postid:")
              (loadStoredNextPostId (emptyAgg kv lc rc)).2 0).1 0).2)
          (restorePostUrlsGo (kvRows kv "posturl:")
            (restorePostUriMappingsGo (kvRows kv "posturi:")
              (restorePostIdLookupsGo (kvRows kv "postid:")
                (loadStoredNextPostId (emptyAgg kv lc rc)).2 0).1 0).1 0).2 + 1)) 1 := rfl
  have hEmpty := recoveryPreE_empty kv lc rc
  have hpreE : idsLE (recoveryPreE kv lc rc) (max ((recoveryPreE kv lc rc).nextPostId - 1) 0) := by
    refine ⟨?_, ?_, ?_⟩
    · rw [hEmpty.1]
      intro e he
      exact absurd he (List.not_mem_nil e)
    · rw [hE_pi, hDpi]
      intro e he
      have h1 := hC.2.1 e he
      have h2 := hB.1
      have h3 := hC.1
      rw [hE_next]
      omega
    · rw [hE_ub, hDub]
      intro e he
      have h1 := hC.2.2 e he
      have h2 := hB.1
      have h3 := hC.1
      rw [hE_next]
      omega
  have hwalk := restorePostsGo_bound now maxAge (kvRows kv "post:")
    (recoveryPreE kv lc rc) 0 hpreE
  have hL_ps : (recoveryPreL kv now maxAge lc rc).postStats =
      (restorePostsGo (kvRows kv "post:") (recoveryPreE kv lc rc) now maxAge 0).1.postStats := rfl
  have hL_pi : (recoveryPreL kv now maxAge lc rc).postIdByUri =
      (restorePostsGo (kvRows kv "post:") (recoveryPreE kv lc rc) now maxAge 0).1.postIdByUri := rfl
  have hL_ub : (recoveryPreL kv now maxAge lc rc).uriByPostId =
      (restorePostsGo (kvRows kv "post:") (recoveryPreE kv lc rc) now maxAge 0).1.uriByPostId := rfl
  have hL_next : (recoveryPreL kv now maxAge lc rc).nextPostId =
      max (restorePostsGo (kvRows kv "post:") (recoveryPreE kv lc rc) now maxAge 0).1.nextPostId
        (max (max (max (restorePostIdLookupsGo (kvRows kv "postid:")
            (loadStoredNextPostId (emptyAgg kv lc rc)).2 0).2
          (restorePostUriMappingsGo (kvRows kv "posturi:")
            (restorePostIdLookupsGo (kvRows kv "postid:")
              (loadStoredNextPostId (emptyAgg kv lc rc)).2 0).1 0).2)
          (restorePostUrlsGo (kvRows kv "posturl:")
            (restorePostUriMappingsGo (kvRows kv "posturi:")
              (restorePostIdLookupsGo (kvRows kv "postid:")
                (loadStoredNextPostId (emptyAgg kv lc rc)).2 0).1 0).1 0).2)
          (restorePostsGo (kvRows kv "post:") (recoveryPreE kv lc rc) now maxAge 0).2 + 1) := rfl
  have hdec := loadState_decomp kv now maxAge lc rc
  have hG := restoreRepostsGo_frames (kvRows kv "repost:")
    (restoreLikesGo (kvRows kv "like:") (recoveryPreL kv now maxAge lc rc))
  have hF := restoreLikesGo_frames (kvRows kv "like:") (recoveryPreL kv now maxAge lc rc)
  have hfin_next : (loadState kv now maxAge lc rc).nextPostId =
      (recoveryPreL kv now maxAge lc rc).nextPostId := by
    rw [hdec, hG.2.2.2.1, hF.2.2.2.1]
  have hfin_ps : (loadState kv now maxAge lc rc).postStats =
      (recoveryPreL kv now maxAge lc rc).postStats := by
    rw [hdec, hG.1, hF.1]
  have hfin_pi : (loadState kv now maxAge lc rc).postIdByUri =
      (recoveryPreL kv now maxAge lc rc).postIdByUri := by
    rw [hdec, hG.2.1, hF.2.1]
  have hfin_ub : (loadState kv now maxAge lc rc).uriByPostId =
      (recoveryPreL kv now maxAge lc rc).uriByPostId := by
    rw [hdec, hG.2.2.1, hF.2.2.1]
  have hnext1 := hwalk.1
  rw [hE_next] at hnext1
  refine ⟨?_, ?_, ⟨?_, ?_, ?_⟩, ?_⟩
  · rw [hfin_next, hL_next]
    omega
  · rw [hfin_next, hL_next]
    omega
  · rw [hfin_ps, hL_ps, hfin_next, hL_next]
    intro e he
    have h1 := hwalk.2.2.1 e he
    omega
  · rw [hfin_pi, hL_pi, hfin_next, hL_next]
    intro e he
    have h1 := hwalk.2.2.2.1 e he
    omega
  · rw [hfin_ub, hL_ub, hfin_next, hL_next]
    intro e he
    have h1 := hwalk.2.2.2.2 e he
    omega
  · intro t u hlt
    cases hg : aget t.postIdByUri u with
    | some i =>
      have hsh : allocatePostId t u = (i, t) := by
        unfold allocatePostId
        rw [hg]
      rw [hsh]
      exact hlt (u, i) (aget_mem _ _ _ hg)
    | none =>
      have hfr := allocate_fresh_shape t u hg
      rw [hfr.1, hfr.2.1]
      omega

/-- Witness for C6 on a one-row store and a fresh allocation. -/
theorem claim_C6_witness :
    1 ≤ (loadState c6Kv 100 10 1000 1000).nextPostId ∧
    (allocatePostId (emptyAgg [] 0 0) "u").1 <
      (allocatePostId (emptyAgg [] 0 0) "u").2.nextPostId :=
  ⟨(claim_C6_next_id_dominates c6Kv 100 10 1000 1000).1,
   (claim_C6_next_id_dominates c6Kv 100 10 1000 1000).2.2.2 (emptyAgg [] 0 0) "u"
     (by decide)⟩
